import Mathlib

/-!
# Verification of the Connexio terminal-infrastructure core

Shallow embedding, in Lean 4, of the parts of the repository that the
claims talk about:

* the PTY manager's UTF-8 and ANSI escape boundary logic and the reader
  worker's emit loop (`src-tauri/src/pty/manager.rs`);
* the shell engine's lexer, parser, executor skip logic, history and
  shell line dispatch (`src-tauri/src/csh/*.rs`).

Byte buffers are modelled as `List Nat` (each element a byte value),
text as `List Char`.  Machine integers are modelled as `Nat`/`Int`
(no arithmetic in the embedded code can overflow).  Fallible code
returns `Except`.  Loops whose termination rests on input consumption
are given explicit fuel (initialised to more than the input length at
the entry points) and return `Option (Except ..)`, with `none` marking
fuel exhaustion; for the initialised fuel this never occurs, because
every loop iteration consumes at least one input element.
-/

set_option maxHeartbeats 1000000
set_option maxRecDepth 8192
set_option linter.unusedTactic false
set_option linter.unreachableTactic false
set_option linter.unnecessarySeqFocus false

namespace Connexio

/-! ## UTF-8 validity (`pty/manager.rs`, `find_utf8_boundary`)

`find_utf8_boundary` in the source calls `std::str::from_utf8` and keeps
`valid_up_to()` bytes.  The functions below embed the UTF-8 validation
performed by `from_utf8` (the standard UTF-8 byte-class table).
`utf8Valid` is the success test, `utf8ValidUpTo` is `valid_up_to()`:
the position of the first byte that is not part of a complete
well-formed sequence (the length when the whole input is valid).
The tail of a sequence is examined by a single nested match so that
each list shape has one equation; the byte-class tests and their order
follow the UTF-8 table. -/

def isCont (b : Nat) : Bool := 128 ≤ b && b ≤ 191
def snd3ok (b b1 : Nat) : Bool :=
  if b = 224 then 160 ≤ b1 && b1 ≤ 191
  else if b = 237 then 128 ≤ b1 && b1 ≤ 159
  else isCont b1
def snd4ok (b b1 : Nat) : Bool :=
  if b = 240 then 144 ≤ b1 && b1 ≤ 191
  else if b = 244 then 128 ≤ b1 && b1 ≤ 143
  else isCont b1

def utf8ValidUpTo : List Nat → Nat
  | [] => 0
  | b :: rest =>
    if b < 128 then 1 + utf8ValidUpTo rest
    else
      match rest with
      | [] => 0
      | [b1] =>
        if 194 ≤ b && b ≤ 223 then (if isCont b1 then 2 + utf8ValidUpTo [] else 0)
        else 0
      | [b1, b2] =>
        if 194 ≤ b && b ≤ 223 then (if isCont b1 then 2 + utf8ValidUpTo [b2] else 0)
        else if 224 ≤ b && b ≤ 239 then
          (if snd3ok b b1 && isCont b2 then 3 + utf8ValidUpTo [] else 0)
        else 0
      | b1 :: b2 :: b3 :: r =>
        if 194 ≤ b && b ≤ 223 then
          (if isCont b1 then 2 + utf8ValidUpTo (b2 :: b3 :: r) else 0)
        else if 224 ≤ b && b ≤ 239 then
          (if snd3ok b b1 && isCont b2 then 3 + utf8ValidUpTo (b3 :: r) else 0)
        else if 240 ≤ b && b ≤ 244 then
          (if snd4ok b b1 && isCont b2 && isCont b3 then 4 + utf8ValidUpTo r else 0)
        else 0

theorem utf8ValidUpTo_le (l : List Nat) : utf8ValidUpTo l ≤ l.length := by
  induction l using utf8ValidUpTo.induct <;> (try rw [utf8ValidUpTo.eq_def]) <;>
    simp_all <;> (try split_ifs) <;> (try simp_all) <;> omega

def utf8Valid : List Nat → Bool
  | [] => true
  | b :: rest =>
    if b < 128 then utf8Valid rest
    else
      match rest with
      | [] => false
      | [b1] =>
        if 194 ≤ b && b ≤ 223 then isCont b1 && utf8Valid [] else false
      | [b1, b2] =>
        if 194 ≤ b && b ≤ 223 then isCont b1 && utf8Valid [b2]
        else if 224 ≤ b && b ≤ 239 then snd3ok b b1 && isCont b2 && utf8Valid []
        else false
      | b1 :: b2 :: b3 :: r =>
        if 194 ≤ b && b ≤ 223 then isCont b1 && utf8Valid (b2 :: b3 :: r)
        else if 224 ≤ b && b ≤ 239 then snd3ok b b1 && isCont b2 && utf8Valid (b3 :: r)
        else if 240 ≤ b && b ≤ 244 then snd4ok b b1 && isCont b2 && isCont b3 && utf8Valid r
        else false

theorem utf8Valid_ascii {b : Nat} (h : b < 128) (X : List Nat) :
    utf8Valid (b :: X) = utf8Valid X := by
  match X with
  | [] => simp [utf8Valid, h]
  | [x] => simp [utf8Valid, h]
  | [x, y] => simp [utf8Valid, h]
  | x :: y :: z :: r => simp [utf8Valid, h]

theorem utf8Valid_two {b : Nat} (h1 : ¬ b < 128) (h2 : (194 ≤ b && b ≤ 223) = true)
    (b1 : Nat) (X : List Nat) :
    utf8Valid (b :: b1 :: X) = (isCont b1 && utf8Valid X) := by
  match X with
  | [] => simp [utf8Valid, h1, h2]
  | [x] => simp [utf8Valid, h1, h2]
  | x :: y :: r => simp [utf8Valid, h1, h2]

theorem utf8Valid_three {b : Nat} (h1 : ¬ b < 128) (h2 : ¬ (194 ≤ b && b ≤ 223) = true)
    (h3 : (224 ≤ b && b ≤ 239) = true) (b1 b2 : Nat) (X : List Nat) :
    utf8Valid (b :: b1 :: b2 :: X) = (snd3ok b b1 && isCont b2 && utf8Valid X) := by
  match X with
  | [] => simp [utf8Valid, h1, h2, h3]
  | x :: r => simp [utf8Valid, h1, h2, h3]

theorem utf8Valid_four {b : Nat} (h1 : ¬ b < 128) (h2 : ¬ (194 ≤ b && b ≤ 223) = true)
    (h3 : ¬ (224 ≤ b && b ≤ 239) = true) (h4 : (240 ≤ b && b ≤ 244) = true)
    (b1 b2 b3 : Nat) (X : List Nat) :
    utf8Valid (b :: b1 :: b2 :: b3 :: X)
      = (snd4ok b b1 && isCont b2 && isCont b3 && utf8Valid X) := by
  simp [utf8Valid, h1, h2, h3, h4]

theorem utf8Valid_bad {b : Nat} (h1 : ¬ b < 128) (h2 : ¬ (194 ≤ b && b ≤ 223) = true)
    (h3 : ¬ (224 ≤ b && b ≤ 239) = true) (h4 : ¬ (240 ≤ b && b ≤ 244) = true)
    (X : List Nat) : utf8Valid (b :: X) = false := by
  match X with
  | [] => simp [utf8Valid, h1]
  | [x] => simp [utf8Valid, h1, h2]
  | [x, y] => simp [utf8Valid, h1, h2, h3]
  | x :: y :: z :: r => simp [utf8Valid, h1, h2, h3, h4]

theorem utf8ValidUpTo_ascii {b : Nat} (h : b < 128) (X : List Nat) :
    utf8ValidUpTo (b :: X) = utf8ValidUpTo X + 1 := by
  match X with
  | [] => simp [utf8ValidUpTo, h] <;> try (first | omega | (split_ifs <;> omega))
  | [x] => simp [utf8ValidUpTo, h] <;> try (first | omega | (split_ifs <;> omega))
  | [x, y] => simp [utf8ValidUpTo, h] <;> try (first | omega | (split_ifs <;> omega))
  | x :: y :: z :: r => simp [utf8ValidUpTo, h] <;> try (first | omega | (split_ifs <;> omega))

theorem utf8ValidUpTo_two {b : Nat} (h1 : ¬ b < 128) (h2 : (194 ≤ b && b ≤ 223) = true)
    (b1 : Nat) (X : List Nat) :
    utf8ValidUpTo (b :: b1 :: X)
      = (if isCont b1 then utf8ValidUpTo X + 2 else 0) := by
  match X with
  | [] => simp [utf8ValidUpTo, h1, h2] <;> try (first | omega | (split_ifs <;> omega))
  | [x] => simp [utf8ValidUpTo, h1, h2] <;> try (first | omega | (split_ifs <;> omega))
  | x :: y :: r => simp [utf8ValidUpTo, h1, h2] <;> try (first | omega | (split_ifs <;> omega))

theorem utf8ValidUpTo_two_short {b : Nat} (h1 : ¬ b < 128) :
    utf8ValidUpTo [b] = 0 := by
  simp [utf8ValidUpTo, h1] <;> try (first | omega | (split_ifs <;> omega))

theorem utf8ValidUpTo_three {b : Nat} (h1 : ¬ b < 128) (h2 : ¬ (194 ≤ b && b ≤ 223) = true)
    (h3 : (224 ≤ b && b ≤ 239) = true) (b1 b2 : Nat) (X : List Nat) :
    utf8ValidUpTo (b :: b1 :: b2 :: X)
      = (if snd3ok b b1 && isCont b2 then utf8ValidUpTo X + 3 else 0) := by
  match X with
  | [] => simp [utf8ValidUpTo, h1, h2, h3] <;> try (first | omega | (split_ifs <;> omega))
  | x :: r => simp [utf8ValidUpTo, h1, h2, h3] <;> try (first | omega | (split_ifs <;> omega))

theorem utf8ValidUpTo_three_short {b b1 : Nat} (h1 : ¬ b < 128)
    (h2 : ¬ (194 ≤ b && b ≤ 223) = true) :
    utf8ValidUpTo [b, b1] = 0 := by
  simp [utf8ValidUpTo, h1, h2] <;> try (first | omega | (split_ifs <;> omega))

theorem utf8ValidUpTo_four {b : Nat} (h1 : ¬ b < 128) (h2 : ¬ (194 ≤ b && b ≤ 223) = true)
    (h3 : ¬ (224 ≤ b && b ≤ 239) = true) (h4 : (240 ≤ b && b ≤ 244) = true)
    (b1 b2 b3 : Nat) (X : List Nat) :
    utf8ValidUpTo (b :: b1 :: b2 :: b3 :: X)
      = (if snd4ok b b1 && isCont b2 && isCont b3 then utf8ValidUpTo X + 4 else 0) := by
  simp [utf8ValidUpTo, h1, h2, h3, h4] <;> try (first | omega | (split_ifs <;> omega))

theorem utf8ValidUpTo_four_short {b b1 b2 : Nat} (h1 : ¬ b < 128)
    (h2 : ¬ (194 ≤ b && b ≤ 223) = true) (h3 : ¬ (224 ≤ b && b ≤ 239) = true) :
    utf8ValidUpTo [b, b1, b2] = 0 := by
  simp [utf8ValidUpTo, h1, h2, h3] <;> try (first | omega | (split_ifs <;> omega))

theorem utf8ValidUpTo_bad {b : Nat} (h1 : ¬ b < 128) (h2 : ¬ (194 ≤ b && b ≤ 223) = true)
    (h3 : ¬ (224 ≤ b && b ≤ 239) = true) (h4 : ¬ (240 ≤ b && b ≤ 244) = true)
    (X : List Nat) : utf8ValidUpTo (b :: X) = 0 := by
  match X with
  | [] => simp [utf8ValidUpTo, h1] <;> try (first | omega | (split_ifs <;> omega))
  | [x] => simp [utf8ValidUpTo, h1, h2] <;> try (first | omega | (split_ifs <;> omega))
  | [x, y] => simp [utf8ValidUpTo, h1, h2, h3] <;> try (first | omega | (split_ifs <;> omega))
  | x :: y :: z :: r => simp [utf8ValidUpTo, h1, h2, h3, h4] <;> try (first | omega | (split_ifs <;> omega))


theorem take_addtwo {α : Type} (n : Nat) (a b : α) (l : List α) :
    List.take (n + 2) (a :: b :: l) = a :: b :: List.take n l := rfl

theorem take_addthree {α : Type} (n : Nat) (a b c : α) (l : List α) :
    List.take (n + 3) (a :: b :: c :: l) = a :: b :: c :: List.take n l := rfl

theorem take_addfour {α : Type} (n : Nat) (a b c d : α) (l : List α) :
    List.take (n + 4) (a :: b :: c :: d :: l) = a :: b :: c :: d :: List.take n l := rfl

theorem utf8Valid_nil : utf8Valid [] = true := rfl

theorem utf8ValidUpTo_nil : utf8ValidUpTo [] = 0 := rfl

theorem utf8Valid_one_short {b : Nat} (h1 : ¬ b < 128) : utf8Valid [b] = false := by
  simp [utf8Valid, h1]

theorem utf8Valid_two_short {b b1 : Nat} (h1 : ¬ b < 128)
    (h2 : ¬ (194 ≤ b && b ≤ 223) = true) : utf8Valid [b, b1] = false := by
  simp [utf8Valid, h1, h2]

theorem utf8Valid_three_short {b b1 b2 : Nat} (h1 : ¬ b < 128)
    (h2 : ¬ (194 ≤ b && b ≤ 223) = true) (h3 : ¬ (224 ≤ b && b ≤ 239) = true) :
    utf8Valid [b, b1, b2] = false := by
  simp [utf8Valid, h1, h2, h3]

theorem utf8Valid_take_upTo (l : List Nat) :
    utf8Valid (l.take (utf8ValidUpTo l)) = true := by
  induction l using utf8ValidUpTo.induct <;>
    simp_all [utf8ValidUpTo_ascii, utf8ValidUpTo_two, utf8ValidUpTo_two_short,
      utf8ValidUpTo_three, utf8ValidUpTo_three_short, utf8ValidUpTo_four,
      utf8ValidUpTo_four_short, utf8ValidUpTo_bad,
      utf8Valid_ascii, utf8Valid_two, utf8Valid_three, utf8Valid_four, utf8Valid_bad,
      take_addtwo, take_addthree, take_addfour, List.take_succ_cons, utf8Valid_nil] <;>
    (try (split_ifs <;> simp_all [utf8Valid_nil]))

theorem utf8Valid_upTo_eq_length (l : List Nat) :
    utf8Valid l = true → utf8ValidUpTo l = l.length := by
  induction l using utf8ValidUpTo.induct <;>
    simp_all [utf8ValidUpTo_ascii, utf8ValidUpTo_two, utf8ValidUpTo_two_short,
      utf8ValidUpTo_three, utf8ValidUpTo_three_short, utf8ValidUpTo_four,
      utf8ValidUpTo_four_short, utf8ValidUpTo_bad,
      utf8Valid_ascii, utf8Valid_two, utf8Valid_three, utf8Valid_four, utf8Valid_bad,
      utf8Valid_nil, utf8ValidUpTo_nil, utf8Valid_one_short, utf8Valid_two_short,
      utf8Valid_three_short] <;>
    (try (split_ifs <;> simp_all)) <;> omega

theorem utf8Valid_append_le_upTo (x : List Nat) :
    ∀ y, utf8Valid x = true → x.length ≤ utf8ValidUpTo (x ++ y) := by
  induction x using utf8ValidUpTo.induct <;> intro y hv <;>
    simp_all [utf8ValidUpTo_ascii, utf8ValidUpTo_two, utf8ValidUpTo_two_short,
      utf8ValidUpTo_three, utf8ValidUpTo_three_short, utf8ValidUpTo_four,
      utf8ValidUpTo_four_short, utf8ValidUpTo_bad,
      utf8Valid_ascii, utf8Valid_two, utf8Valid_three, utf8Valid_four, utf8Valid_bad,
      utf8Valid_nil, utf8ValidUpTo_nil, utf8Valid_one_short, utf8Valid_two_short,
      utf8Valid_three_short] <;>
    (try (split_ifs <;> simp_all)) <;> omega

theorem utf8Valid_take_le_upTo (l : List Nat) (k : Nat) (hk : k ≤ l.length)
    (hv : utf8Valid (l.take k) = true) : k ≤ utf8ValidUpTo l := by
  have h1 := utf8Valid_append_le_upTo (l.take k) (l.drop k) hv
  rw [List.take_append_drop] at h1
  simpa [List.length_take, Nat.min_eq_left hk] using h1

/-- Embedding of `find_utf8_boundary` (`pty/manager.rs`, lines 33-57):
empty input gives 0; fully valid input gives its length; otherwise
`valid_up_to()` is returned both in the incomplete-at-end branch
(`error_len().is_none()`) and in the invalid-inside branch. -/
def find_utf8_boundary (bytes : List Nat) : Nat :=
  if bytes.isEmpty then 0
  else if utf8Valid bytes then bytes.length
  else utf8ValidUpTo bytes

/-- **C2**: for every byte buffer `b`, `find_utf8_boundary b` is the byte
length of the longest prefix of `b` that decodes as valid UTF-8: the
returned prefix is valid, no longer prefix is valid (whether the
remainder is an incomplete multibyte tail or an invalidity strictly
inside the buffer), and on an entirely valid buffer the whole length is
returned. -/
theorem find_utf8_boundary_longest_valid (b : List Nat) :
    utf8Valid (b.take (find_utf8_boundary b)) = true
    ∧ (∀ k, k ≤ b.length → utf8Valid (b.take k) = true → k ≤ find_utf8_boundary b)
    ∧ (utf8Valid b = true → find_utf8_boundary b = b.length) := by
  unfold find_utf8_boundary
  refine ⟨?_, ?_, ?_⟩
  · split_ifs with h1 h2
    · simp [utf8Valid_nil]
    · simpa [List.take_of_length_le] using h2
    · exact utf8Valid_take_upTo b
  · intro k hk hv
    split_ifs with h1 h2
    · simp_all
    · exact hk
    · exact utf8Valid_take_le_upTo b k hk hv
  · intro hv
    split_ifs with h1 h2 <;> simp_all

/-- Witness for C2: on `[0x41, 0xC2]` (an ASCII byte then a lone 2-byte
leader) the boundary keeps at least the ASCII byte; on ASCII `"Hi"` the
whole buffer is kept. -/
theorem find_utf8_boundary_longest_valid_witness :
    1 ≤ find_utf8_boundary [65, 194] ∧ find_utf8_boundary [72, 105] = 2 :=
  ⟨(find_utf8_boundary_longest_valid [65, 194]).2.1 1 (by decide) (by decide),
   (find_utf8_boundary_longest_valid [72, 105]).2.2 (by decide)⟩

/-! ## ANSI escape-sequence boundary (`pty/manager.rs`,
`find_incomplete_escape_sequence`)

The source works on a `&str`; every position it manipulates
(`rfind`, slicing, `len`) is a byte index, so the function is embedded
on the UTF-8 byte list of the string.  `ESC` is byte 27, `[` is 91,
`]` is 93, `BEL` is 7, `\` is 92. -/

/-- ASCII letter test (`u8::is_ascii_alphabetic`). -/
def isAsciiAlpha (b : Nat) : Bool := (65 ≤ b && b ≤ 90) || (97 ≤ b && b ≤ 122)

/-- ASCII digit test (`u8::is_ascii_digit`). -/
def isAsciiDigit (b : Nat) : Bool := 48 ≤ b && b ≤ 57

/-- A CSI terminating byte per the source: a letter or `@`, backquote, `~`. -/
def isCsiEnd (b : Nat) : Bool := isAsciiAlpha b || b = 64 || b = 96 || b = 126

/-- `str::rfind('\x1b')`: byte index of the last ESC, if any. -/
def rfindEsc : List Nat → Option Nat
  | [] => none
  | b :: rest =>
    match rfindEsc rest with
    | some p => some (p + 1)
    | none => if b = 27 then some 0 else none

/-- The enumerate-scan of the source's CSI branch: index of the first
terminating byte. -/
def csiScan : List Nat → Option Nat
  | [] => none
  | b :: rest => if isCsiEnd b then some 0 else (csiScan rest).map (· + 1)

/-- Whether the two-byte string terminator ESC `\` occurs
(`str::contains("\x1b\\")`). -/
def hasStTerm : List Nat → Bool
  | 27 :: 92 :: _ => true
  | _ :: rest => hasStTerm rest
  | [] => false

/-- Embedding of `find_incomplete_escape_sequence` (`pty/manager.rs`,
lines 66-126): find the last ESC; a lone trailing ESC is incomplete; an
`ESC [` fragment is complete at a terminating byte (recursing on any
content after the terminator); an `ESC ]` fragment is complete when the
fragment contains `BEL` or `ESC \`; `ESC` followed by a letter, digit
or one of `= > <` is complete; anything else is incomplete.  Returns
the byte position where an incomplete trailing sequence starts, `none`
when the text is complete. -/
def find_incomplete_escape_sequence (data : List Nat) : Option Nat :=
  match rfindEsc data with
  | none => none
  | some p =>
    match data.drop p with
    | [] => some p
    | [_] => some p
    | _ :: b1 :: rest2 =>
      if b1 = 91 then
        match csiScan rest2 with
        | some i =>
          if h : p + 2 + i + 1 < data.length then
            match find_incomplete_escape_sequence (data.drop (p + 2 + i + 1)) with
            | some q => some (p + 2 + i + 1 + q)
            | none => none
          else none
        | none => some p
      else if b1 = 93 then
        if (data.drop p).contains 7 || hasStTerm (data.drop p) then none else some p
      else if isAsciiAlpha b1 || isAsciiDigit b1 || b1 = 61 || b1 = 62 || b1 = 60 then none
      else some p
termination_by data.length
decreasing_by simp; omega

/-- The classification of §4.9.2 of the specification, stated on the
trailing fragment that starts at the last ESC: a bare ESC is
incomplete; `ESC [`… is complete when a terminator in `@`, letters,
backquote or `~` has been seen; `ESC ]`… is complete when `BEL` or
`ESC \` appears; ESC followed by an alphanumeric character or one of
`= > <` is complete; otherwise incomplete. -/
def specEscFragComplete : List Nat → Bool
  | [] => false
  | [_] => false
  | e :: b1 :: rest =>
    if b1 = 91 then rest.any isCsiEnd
    else if b1 = 93 then (e :: b1 :: rest).contains 7 || hasStTerm (e :: b1 :: rest)
    else isAsciiAlpha b1 || isAsciiDigit b1 || b1 = 61 || b1 = 62 || b1 = 60

/-- §4.9.2 applied to a whole payload: if the payload contains an ESC,
the trailing fragment starting at the last ESC must be complete. -/
def specEscapeOk (payload : List Nat) : Bool :=
  match rfindEsc payload with
  | none => true
  | some p => specEscFragComplete (payload.drop p)

theorem csiScan_any : ∀ {l : List Nat} {i : Nat}, csiScan l = some i → l.any isCsiEnd = true := by
  intro l
  induction l with
  | nil => intro i h; simp [csiScan] at h
  | cons b rest ih =>
    intro i h
    by_cases hb : isCsiEnd b = true
    · simp [hb]
    · simp only [csiScan, hb, if_neg, Bool.false_eq_true] at h
      cases hcs : csiScan rest with
      | none => rw [hcs] at h; simp at h
      | some j => simp [List.any_cons, hb, ih hcs]

/-- When the source's escape-boundary check reports a text complete, the
text's trailing fragment is complete in the sense of §4.9.2. -/
theorem escape_none_spec_ok (data : List Nat)
    (h : find_incomplete_escape_sequence data = none) : specEscapeOk data = true := by
  unfold specEscapeOk
  rw [find_incomplete_escape_sequence.eq_def] at h
  split at h
  · rfl
  · rename_i p heq
    split at h
    · simp at h
    · simp at h
    · rename_i e b1 rest2 heq2
      rw [heq2]
      by_cases hb1 : b1 = 91
      · subst hb1
        rw [if_pos rfl] at h
        cases hs : csiScan rest2 with
        | none => rw [hs] at h; simp at h
        | some i =>
          simp [specEscFragComplete, csiScan_any hs]
      · rw [if_neg hb1] at h
        by_cases hb2 : b1 = 93
        · subst hb2
          rw [if_pos rfl] at h
          split_ifs at h with hterm
          rw [heq2] at hterm
          simpa [specEscFragComplete, hb1] using hterm
        · rw [if_neg hb2] at h
          split_ifs at h with hsimple
          simp [specEscFragComplete, hb1, hb2, hsimple]

/-! ## The reader worker's emit loop (`pty/manager.rs`, lines 232-361)

The loop's `Ok(n)` branch and the `Ok(0)` (EOF) flush are embedded; the
stop-flag and read-error paths end the loop without emitting and the
`WouldBlock` path emits nothing, so they do not affect the emitted
payloads.  Event emission is modelled by collecting the payload byte
lists in order. -/

/-- Embedding of `String::from_utf8_lossy` (used by the EOF flush):
well-formed sequences are copied; each maximal invalid subpart is
replaced by `EF BF BD`, the UTF-8 encoding of U+FFFD; an incomplete
sequence at the very end is replaced by a single U+FFFD. -/
def utf8Lossy : List Nat → List Nat
  | [] => []
  | b :: rest =>
    if b < 128 then b :: utf8Lossy rest
    else
      match rest with
      | [] => [239, 191, 189]
      | [b1] =>
        if 194 ≤ b && b ≤ 223 then
          (if isCont b1 then [b, b1] else 239 :: 191 :: 189 :: utf8Lossy [b1])
        else if 224 ≤ b && b ≤ 239 then
          (if snd3ok b b1 then [239, 191, 189]
           else 239 :: 191 :: 189 :: utf8Lossy [b1])
        else if 240 ≤ b && b ≤ 244 then
          (if snd4ok b b1 then [239, 191, 189]
           else 239 :: 191 :: 189 :: utf8Lossy [b1])
        else 239 :: 191 :: 189 :: utf8Lossy [b1]
      | [b1, b2] =>
        if 194 ≤ b && b ≤ 223 then
          (if isCont b1 then b :: b1 :: utf8Lossy [b2]
           else 239 :: 191 :: 189 :: utf8Lossy [b1, b2])
        else if 224 ≤ b && b ≤ 239 then
          (if snd3ok b b1 then
             (if isCont b2 then [b, b1, b2] else 239 :: 191 :: 189 :: utf8Lossy [b2])
           else 239 :: 191 :: 189 :: utf8Lossy [b1, b2])
        else if 240 ≤ b && b ≤ 244 then
          (if snd4ok b b1 then
             (if isCont b2 then [239, 191, 189] else 239 :: 191 :: 189 :: utf8Lossy [b2])
           else 239 :: 191 :: 189 :: utf8Lossy [b1, b2])
        else 239 :: 191 :: 189 :: utf8Lossy [b1, b2]
      | b1 :: b2 :: b3 :: r =>
        if 194 ≤ b && b ≤ 223 then
          (if isCont b1 then b :: b1 :: utf8Lossy (b2 :: b3 :: r)
           else 239 :: 191 :: 189 :: utf8Lossy (b1 :: b2 :: b3 :: r))
        else if 224 ≤ b && b ≤ 239 then
          (if snd3ok b b1 then
             (if isCont b2 then b :: b1 :: b2 :: utf8Lossy (b3 :: r)
              else 239 :: 191 :: 189 :: utf8Lossy (b2 :: b3 :: r))
           else 239 :: 191 :: 189 :: utf8Lossy (b1 :: b2 :: b3 :: r))
        else if 240 ≤ b && b ≤ 244 then
          (if snd4ok b b1 then
             (if isCont b2 then
                (if isCont b3 then b :: b1 :: b2 :: b3 :: utf8Lossy r
                 else 239 :: 191 :: 189 :: utf8Lossy (b3 :: r))
              else 239 :: 191 :: 189 :: utf8Lossy (b2 :: b3 :: r))
           else 239 :: 191 :: 189 :: utf8Lossy (b1 :: b2 :: b3 :: r))
        else 239 :: 191 :: 189 :: utf8Lossy (b1 :: b2 :: b3 :: r)

/-- One `Ok(n)` iteration of the reader worker (`pty/manager.rs`,
lines 259-327): combine carryover with the newly read bytes; find the
UTF-8 boundary; when the valid prefix is empty and the combined buffer
is under 6 bytes, stash everything as carryover; otherwise split off a
trailing incomplete escape sequence, emit the remainder when non-empty,
and carry over the escape tail followed by the invalid byte tail.
(The source's `from_utf8` call on the valid prefix cannot fail, so its
lossy fallback is not taken.)  Returns the emitted payload, if any, and
the next carryover. -/
def workerStep (carryover bytes : List Nat) : Option (List Nat) × List Nat :=
  let combined := carryover ++ bytes
  let ub := find_utf8_boundary combined
  if ub = 0 ∧ combined.length < 6 then (none, combined)
  else
    let valid_bytes := combined.take ub
    let remaining := combined.drop ub
    match find_incomplete_escape_sequence valid_bytes with
    | some p =>
      (if (valid_bytes.take p).isEmpty then none else some (valid_bytes.take p),
       valid_bytes.drop p ++ remaining)
    | none =>
      (if valid_bytes.isEmpty then none else some valid_bytes, remaining)

/-- The worker loop over a sequence of successful (`Ok(n)`) reads,
starting from a carryover: the payloads emitted, in order, and the
final carryover. -/
def workerRun : List Nat → List (List Nat) → List (List Nat) × List Nat
  | c, [] => ([], c)
  | c, r :: rs =>
    let (out, c') := workerStep c r
    let (outs, cf) := workerRun c' rs
    (out.toList ++ outs, cf)

/-- A full worker run that ends when `read` returns `Ok(0)` (EOF): after
the reads, a non-empty carryover is emitted as a final payload after
lossy UTF-8 conversion (`pty/manager.rs`, lines 246-258). -/
def workerRunEof (reads : List (List Nat)) : List (List Nat) :=
  let (outs, c) := workerRun [] reads
  outs ++ (if c.isEmpty then [] else [utf8Lossy c])

theorem fies_esc_lbracket_3 :
    find_incomplete_escape_sequence [27, 91, 51] = some 0 := by
  rw [find_incomplete_escape_sequence.eq_def]; decide

theorem workerStep_esc_lbracket_3 :
    workerStep [] [27, 91, 51] = (none, [27, 91, 51]) := by
  simp only [workerStep, List.nil_append]
  rw [show find_utf8_boundary [27, 91, 51] = 3 by decide]
  rw [show List.take 3 [27, 91, 51] = [27, 91, 51] from rfl]
  rw [fies_esc_lbracket_3]
  decide

/-- **C1 counterexample**: feed the worker one read containing the bytes
`ESC [ 3` (an unterminated CSI sequence) and then EOF.  The `Ok(n)`
iteration emits nothing and carries the whole fragment over; the EOF
branch then flushes the carryover as a final `pty-output` payload with
no escape-boundary check, so the final payload ends in the middle of a
CSI sequence (its trailing fragment starting at the last ESC is
incomplete by §4.9.2). -/
theorem pty_eof_payload_ends_mid_escape :
    workerRunEof [[27, 91, 51]] = [[27, 91, 51]]
    ∧ specEscapeOk [27, 91, 51] = false := by
  constructor
  · unfold workerRunEof workerRun
    rw [workerStep_esc_lbracket_3]
    simp only [workerRun]
    decide
  · decide

/-- **C1 (amended)**: a payload emitted by the worker's `Ok(n)` branch is
the UTF-8-valid prefix of the combined buffer cut at the escape
boundary: when `find_incomplete_escape_sequence` reports the decoded
text complete the whole text is emitted and its trailing ESC fragment
is complete by the rules of §4.9.2; when it reports an incomplete
trailing sequence at position `q`, exactly the text before `q` is
emitted (such a truncated payload can itself still end with an earlier
unterminated sequence, and the final EOF flush of the carryover is
emitted without any escape check — see the counterexample). -/
theorem workerStep_escape_boundary (c bs p c' : List Nat)
    (h : workerStep c bs = (some p, c')) :
    (find_incomplete_escape_sequence ((c ++ bs).take (find_utf8_boundary (c ++ bs))) = none
       ∧ p = (c ++ bs).take (find_utf8_boundary (c ++ bs))
       ∧ specEscapeOk p = true)
    ∨ (∃ q, find_incomplete_escape_sequence ((c ++ bs).take (find_utf8_boundary (c ++ bs))) = some q
       ∧ p = ((c ++ bs).take (find_utf8_boundary (c ++ bs))).take q
       ∧ c' = ((c ++ bs).take (find_utf8_boundary (c ++ bs))).drop q
              ++ (c ++ bs).drop (find_utf8_boundary (c ++ bs))) := by
  simp only [workerStep] at h
  split at h
  · simp at h
  · split at h
    · rename_i q heq
      split at h
      · simp at h
      · injection h with h1 h2
        injection h1 with h1
        exact Or.inr ⟨q, heq, h1.symm, h2.symm⟩
    · rename_i heq
      split at h
      · simp at h
      · injection h with h1 h2
        injection h1 with h1
        exact Or.inl ⟨heq, h1.symm, h1 ▸ escape_none_spec_ok _ heq⟩

theorem fies_complete_csi :
    find_incomplete_escape_sequence [27, 91, 109] = none := by
  rw [find_incomplete_escape_sequence.eq_def]; decide

theorem workerStep_complete_csi :
    workerStep [] [27, 91, 109] = (some [27, 91, 109], []) := by
  simp only [workerStep, List.nil_append]
  rw [show find_utf8_boundary [27, 91, 109] = 3 by decide]
  rw [show List.take 3 [27, 91, 109] = [27, 91, 109] from rfl]
  rw [fies_complete_csi]
  decide

/-- Witness for the amended C1 at the single read `ESC [ m` (a complete
CSI sequence): the whole text is emitted and is §4.9.2-complete. -/
theorem workerStep_escape_boundary_witness :
    (find_incomplete_escape_sequence (([] ++ [27, 91, 109]).take
        (find_utf8_boundary ([] ++ [27, 91, 109]))) = none
       ∧ [27, 91, 109] = ([] ++ [27, 91, 109]).take (find_utf8_boundary ([] ++ [27, 91, 109]))
       ∧ specEscapeOk [27, 91, 109] = true)
    ∨ (∃ q, find_incomplete_escape_sequence (([] ++ [27, 91, 109]).take
        (find_utf8_boundary ([] ++ [27, 91, 109]))) = some q
       ∧ [27, 91, 109] = (([] ++ [27, 91, 109]).take
           (find_utf8_boundary ([] ++ [27, 91, 109]))).take q
       ∧ [] = (([] ++ [27, 91, 109]).take (find_utf8_boundary ([] ++ [27, 91, 109]))).drop q
              ++ ([] ++ [27, 91, 109]).drop (find_utf8_boundary ([] ++ [27, 91, 109]))) :=
  workerStep_escape_boundary [] [27, 91, 109] [27, 91, 109] [] workerStep_complete_csi

/-- **C3**: on the OSC sequence `ESC ] 0 ; t i t l e` terminated by the
two-byte string terminator `ESC \`, the boundary check reports an
incomplete sequence starting at the terminator's own ESC (byte 9)
instead of reporting the text complete: `rfind` picks the terminator's
ESC as the fragment start, so the `ESC ]` branch that tests for
`ESC \` can never see it.  The BEL-terminated form, by contrast, is
correctly reported complete. -/
theorem osc_st_terminator_misclassified :
    find_incomplete_escape_sequence [27, 93, 48, 59, 116, 105, 116, 108, 101, 27, 92] = some 9
    ∧ find_incomplete_escape_sequence [27, 93, 48, 7] = none := by
  constructor <;> (rw [find_incomplete_escape_sequence.eq_def]; decide)

/-! ## Command history (`csh/history.rs`)

Command strings are `List Char`; the `VecDeque` is a list whose back is
the list's last element.  File persistence (`save`, autosave) performs
I/O only and does not change the entries, so it is not part of the
state transition. -/

/-- The history state: entries, capacity, navigation position. -/
structure History where
  entries : List (List Char)
  max_size : Nat
  position : Nat
deriving DecidableEq, Repr

/-- Embedding of `History::add` (`csh/history.rs`, lines 43-72): empty
commands, duplicates of the back entry, and commands starting with a
space are ignored; otherwise the front entry is popped when at
capacity, the command is pushed at the back and the position moves to
the new length. -/
def History.add (h : History) (command : List Char) : History :=
  if command.isEmpty then h
  else if h.entries.getLast? = some command then h
  else if command.head? = some ' ' then h
  else
    let entries1 := if h.max_size ≤ h.entries.length then h.entries.drop 1 else h.entries
    let entries2 := entries1 ++ [command]
    { h with entries := entries2, position := entries2.length }

/-- **C8 counterexample**: a history constructed with capacity 0
(`History::new(0)`) exceeds its capacity on the first `add`: the
pop-then-push sequence leaves one entry, so the length bound of the
claim fails for capacity 0. -/
theorem history_zero_capacity_overflow :
    (History.mk [] 0 0).max_size = 0
    ∧ ((History.mk [] 0 0).add ['a']).entries.length = 1 := by
  constructor <;> rfl

/-- **C8 (amended)**: `add` ignores empty commands, duplicates of the
most recently stored entry, and commands beginning with a space;
otherwise it appends the command, dropping the oldest entry first when
the history is at capacity (which preserves the relative order of the
remaining entries), and — provided the capacity is at least 1 — the
length never exceeds the capacity.  (A zero-capacity history reaches
length 1, see the counterexample.) -/
theorem history_add_characterization (h : History) (cmd : List Char) :
    (cmd.isEmpty = true → h.add cmd = h)
    ∧ (h.entries.getLast? = some cmd → h.add cmd = h)
    ∧ (cmd.head? = some ' ' → h.add cmd = h)
    ∧ (cmd.isEmpty = false → h.entries.getLast? ≠ some cmd → cmd.head? ≠ some ' ' →
        (h.add cmd).entries
          = (if h.max_size ≤ h.entries.length then h.entries.drop 1 else h.entries) ++ [cmd]
        ∧ (1 ≤ h.max_size → h.entries.length ≤ h.max_size →
            (h.add cmd).entries.length ≤ h.max_size)) := by
  refine ⟨?_, ?_, ?_, ?_⟩
  · intro hc; simp [History.add, hc]
  · intro hc; simp [History.add, hc]
  · intro hc
    unfold History.add
    split_ifs <;> rfl
  · intro h1 h2 h3
    constructor
    · simp [History.add, h1, h2, h3]
    · intro hcap hlen
      simp only [History.add, h1, h2, h3, Bool.false_eq_true, if_false, if_neg]
      split_ifs with hfull
      · simp only [List.length_append, List.length_drop, List.length_cons,
          List.length_nil]
        omega
      · simp only [List.length_append, List.length_cons, List.length_nil]
        omega

/-- Witness for the amended C8: a duplicate of the back entry is
ignored, and an `add` at capacity 2 drops the oldest entry and keeps
the length at 2. -/
theorem history_add_characterization_witness :
    (History.mk [['l', 's']] 10000 1).add ['l', 's'] = History.mk [['l', 's']] 10000 1
    ∧ ((History.mk [['a'], ['b']] 2 2).add ['c']).entries = [['b'], ['c']] := by
  constructor
  · exact (history_add_characterization (History.mk [['l', 's']] 10000 1) ['l', 's']).2.1
      (by rfl)
  · have hc := (history_add_characterization (History.mk [['a'], ['b']] 2 2) ['c']).2.2.2
      (by rfl) (by decide) (by decide)
    rw [hc.1]
    rfl

/-! ## PTY manager session operations (`pty/manager.rs`, lines 373-455)

The sessions `HashMap` is an association list from id to session; the
mutex, the writer and master OS handles and the log calls carry no
state visible to these claims, so the `write_all`/`flush`/`resize`
system calls are abstracted as succeeding when the session exists.
`anyhow` errors are modelled by an error tag (the message text is
cosmetic). -/

/-- The shell kinds of `PtySpawnConfig`. -/
inductive ShellType
  | PowerShell
  | Cmd
  | Wsl
  | GitBash
deriving DecidableEq, Repr

/-- A stored session (`PtySession`): the writer and master handles are
abstracted away; `should_stop` is the shared stop flag's value. -/
structure PtySession where
  shell_type : ShellType
  working_directory : Option (List Char)
  should_stop : Bool
deriving DecidableEq, Repr

/-- Error tag for the `anyhow` contexts of the manager operations. -/
inductive PtyError
  | SessionNotFound
deriving DecidableEq, Repr

/-- The sessions map. -/
def Sessions := List (List Char × PtySession)

/-- `HashMap::get` / `get_mut` on the association list. -/
def lookupSession : Sessions → List Char → Option PtySession
  | [], _ => none
  | (k, s) :: rest, id => if k = id then some s else lookupSession rest id

/-- `HashMap::remove`: the removed session, if any, and the remaining map. -/
def removeSession : Sessions → List Char → Option PtySession × Sessions
  | [], _ => (none, [])
  | (k, s) :: rest, id =>
    if k = id then (some s, rest)
    else
      let (r, m) := removeSession rest id
      (r, (k, s) :: m)

/-- Embedding of `PtyManager::write` (lines 373-391): look up the
session; a missing id is an error; otherwise write and flush (abstracted
as succeeding). -/
def PtyManager.write (sessions : Sessions) (id : List Char) (_data : List Nat) :
    Except PtyError Unit :=
  match lookupSession sessions id with
  | some _ => .ok ()
  | none => .error .SessionNotFound

/-- Embedding of `PtyManager::resize` (lines 394-414): look up the
session; a missing id is an error; otherwise resize the master
(abstracted as succeeding). -/
def PtyManager.resize (sessions : Sessions) (id : List Char) (_rows _cols : Nat) :
    Except PtyError Unit :=
  match lookupSession sessions id with
  | some _ => .ok ()
  | none => .error .SessionNotFound

/-- Embedding of `PtyManager::kill` (lines 417-427): remove the session
if present and set its shared stop flag; return `Ok(())` in every case.
The result is the operation's result, the new map, and whether a stop
flag was set. -/
def PtyManager.kill (sessions : Sessions) (id : List Char) :
    Except PtyError Unit × Sessions × Bool :=
  match removeSession sessions id with
  | (some _, m) => (.ok (), m, true)
  | (none, _) => (.ok (), sessions, false)

theorem lookupSession_none_remove (sessions : Sessions) (id : List Char)
    (h : lookupSession sessions id = none) :
    removeSession sessions id = (none, sessions) := by
  induction sessions with
  | nil => rfl
  | cons kv rest ih =>
    obtain ⟨k, s⟩ := kv
    simp only [lookupSession] at h
    simp only [removeSession]
    split_ifs at h ⊢ with hk
    rw [ih h]

/-- **C9 counterexample**: `kill` on an unknown id (here: the empty map)
returns `Ok(())`, not an error — the source's `if let Some(session) =
sessions.remove(pty_id)` silently ignores a missing id. -/
theorem kill_unknown_id_ok :
    lookupSession [] ['x'] = none
    ∧ (PtyManager.kill [] ['x']).1 = .ok () := by
  constructor <;> rfl

/-- **C9 (amended)**: for a session id not present in the map, `write`
and `resize` return an error, while `kill` returns `Ok(())`, leaves the
map unchanged and sets no stop flag. -/
theorem unknown_session_id_results (sessions : Sessions) (id : List Char)
    (data : List Nat) (rows cols : Nat) (h : lookupSession sessions id = none) :
    PtyManager.write sessions id data = .error .SessionNotFound
    ∧ PtyManager.resize sessions id rows cols = .error .SessionNotFound
    ∧ PtyManager.kill sessions id = (.ok (), sessions, false) := by
  refine ⟨?_, ?_, ?_⟩
  · simp [PtyManager.write, h]
  · simp [PtyManager.resize, h]
  · simp [PtyManager.kill, lookupSession_none_remove sessions id h]

/-- Witness for the amended C9 on a one-session map and a fresh id. -/
theorem unknown_session_id_results_witness :
    PtyManager.write [(['a'], PtySession.mk ShellType.Cmd none false)] ['b'] [104, 105]
        = .error .SessionNotFound
    ∧ PtyManager.resize [(['a'], PtySession.mk ShellType.Cmd none false)] ['b'] 24 80
        = .error .SessionNotFound
    ∧ PtyManager.kill [(['a'], PtySession.mk ShellType.Cmd none false)] ['b']
        = (.ok (), [(['a'], PtySession.mk ShellType.Cmd none false)], false) :=
  unknown_session_id_results [(['a'], PtySession.mk ShellType.Cmd none false)]
    ['b'] [104, 105] 24 80 (by decide)

/-! ## Shell AST (`csh/ast.rs`) and executor skip logic (`csh/executor.rs`)

Text is `List Char`.  `Executor::execute_pipeline` spawns processes and
dispatches built-ins; for the skip-logic claim it is an opaque state
transformer `run : Pipeline → σ → ExitStatus × σ` over an abstract
executor state `σ`.  The loop of `Executor::execute` (lines 42-81) is
embedded with its `skip_next` logic; `env.set_last_exit_code` is the
`Int` component threaded through.  The embedding also records the list
of indices of the pipelines that were executed. -/

/-- `RedirectType` (`csh/ast.rs`). -/
inductive RedirectType
  | StdoutOverwrite
  | StdoutAppend
  | StdinRead
  | StderrOverwrite
  | StderrAppend
  | BothOverwrite
  | BothAppend
deriving DecidableEq, Repr

/-- `Redirect` (`csh/ast.rs`). -/
structure Redirect where
  redirect_type : RedirectType
  target : List Char
deriving DecidableEq, Repr

/-- `Command` (`csh/ast.rs`). -/
structure Command where
  name : List Char
  args : List (List Char)
  env_assignments : List (List Char × List Char)
deriving DecidableEq, Repr

/-- `Command::with_args`. -/
def Command.with_args (name : List Char) (args : List (List Char)) : Command :=
  ⟨name, args, []⟩

/-- `Pipeline` (`csh/ast.rs`). -/
structure Pipeline where
  commands : List Command
  stdin_redirect : Option Redirect
  stdout_redirects : List Redirect
  background : Bool
deriving DecidableEq, Repr

/-- `LogicalOp` (`csh/ast.rs`). -/
inductive LogicalOp
  | And
  | Or
  | Sequence
deriving DecidableEq, Repr

/-- `CommandLine` (`csh/ast.rs`). -/
structure CommandLine where
  pipelines : List Pipeline
  operators : List LogicalOp
deriving DecidableEq, Repr

/-- `CommandLine::new`. -/
def CommandLine.new : CommandLine := ⟨[], []⟩

/-- `CommandLine::is_empty`. -/
def CommandLine.is_empty (cl : CommandLine) : Bool := cl.pipelines.isEmpty

/-- `ExitStatus` (`csh/ast.rs`): `code` is an `i32`, `signal` unused by
the embedded paths. -/
structure ExitStatus where
  code : Int
  signal : Option Int
deriving DecidableEq, Repr

/-- `ExitStatus::success`. -/
def ExitStatus.success : ExitStatus := ⟨0, none⟩

/-- `ExitStatus::failure`. -/
def ExitStatus.failure (c : Int) : ExitStatus := ⟨c, none⟩

/-- `ExitStatus::is_success`. -/
def ExitStatus.is_success (s : ExitStatus) : Bool := s.code = 0

/-- The operator inspection of `Executor::execute` (lines 52-69): at
index `i > 0` with `i ≤ operators.len()`, `And` skips after a failure,
`Or` skips after a success, `Sequence` never skips; outside that range
nothing is skipped.  (`get? (i-1) = none` is exactly
`¬(i ≤ operators.len())`.) -/
def skipDecision (ops : List LogicalOp) (i : Nat) (last : ExitStatus) : Bool :=
  if 0 < i then
    match ops.get? (i - 1) with
    | some LogicalOp.And => !last.is_success
    | some LogicalOp.Or => last.is_success
    | some LogicalOp.Sequence => false
    | none => false
  else false

/-- The `for (i, pipeline)` loop of `Executor::execute` (lines 50-78):
a skipped pipeline clears the flag and changes nothing else; an
executed pipeline updates the status and `last_exit_code`
(`env.set_last_exit_code`).  Returns the final status, state,
`last_exit_code` and the executed indices in order. -/
def executeLoop {σ : Type} (run : Pipeline → σ → ExitStatus × σ) (ops : List LogicalOp) :
    List Pipeline → Nat → ExitStatus → σ → Int → ExitStatus × σ × Int × List Nat
  | [], _, last, st, lec => (last, st, lec, [])
  | p :: rest, i, last, st, lec =>
    if skipDecision ops i last then
      executeLoop run ops rest (i + 1) last st lec
    else
      let s := (run p st).1
      let st2 := (run p st).2
      let r := executeLoop run ops rest (i + 1) s st2 s.code
      (r.1, r.2.1, r.2.2.1, i :: r.2.2.2)

/-- Embedding of `Executor::execute` (lines 42-81). -/
def Executor.execute {σ : Type} (run : Pipeline → σ → ExitStatus × σ)
    (cl : CommandLine) (st : σ) (lec : Int) : ExitStatus × σ × Int × List Nat :=
  if cl.is_empty then (ExitStatus.success, st, lec, [])
  else executeLoop run cl.operators cl.pipelines 0 ExitStatus.success st lec

theorem executeLoop_cons {σ : Type} (run : Pipeline → σ → ExitStatus × σ)
    (ops : List LogicalOp) (p : Pipeline) (rest : List Pipeline) (i : Nat)
    (last : ExitStatus) (st : σ) (lec : Int) :
    executeLoop run ops (p :: rest) i last st lec =
      if skipDecision ops i last then
        executeLoop run ops rest (i + 1) last st lec
      else
        ((executeLoop run ops rest (i + 1) (run p st).1 (run p st).2 (run p st).1.code).1,
         (executeLoop run ops rest (i + 1) (run p st).1 (run p st).2 (run p st).1.code).2.1,
         (executeLoop run ops rest (i + 1) (run p st).1 (run p st).2 (run p st).1.code).2.2.1,
         i :: (executeLoop run ops rest (i + 1) (run p st).1 (run p st).2
                 (run p st).1.code).2.2.2) := rfl

theorem executeLoop_append {σ : Type} (run : Pipeline → σ → ExitStatus × σ)
    (ops : List LogicalOp) (l1 : List Pipeline) :
    ∀ (l2 : List Pipeline) (i : Nat) (last : ExitStatus) (st : σ) (lec : Int),
      executeLoop run ops (l1 ++ l2) i last st lec =
        ((executeLoop run ops l2 (i + l1.length)
            (executeLoop run ops l1 i last st lec).1
            (executeLoop run ops l1 i last st lec).2.1
            (executeLoop run ops l1 i last st lec).2.2.1).1,
         (executeLoop run ops l2 (i + l1.length)
            (executeLoop run ops l1 i last st lec).1
            (executeLoop run ops l1 i last st lec).2.1
            (executeLoop run ops l1 i last st lec).2.2.1).2.1,
         (executeLoop run ops l2 (i + l1.length)
            (executeLoop run ops l1 i last st lec).1
            (executeLoop run ops l1 i last st lec).2.1
            (executeLoop run ops l1 i last st lec).2.2.1).2.2.1,
         (executeLoop run ops l1 i last st lec).2.2.2
           ++ (executeLoop run ops l2 (i + l1.length)
            (executeLoop run ops l1 i last st lec).1
            (executeLoop run ops l1 i last st lec).2.1
            (executeLoop run ops l1 i last st lec).2.2.1).2.2.2) := by
  induction l1 with
  | nil => intro l2 i last st lec; simp [executeLoop]
  | cons p rest ih =>
    intro l2 i last st lec
    rw [List.cons_append, executeLoop_cons, executeLoop_cons]
    by_cases hskip : skipDecision ops i last = true
    · rw [if_pos hskip, if_pos hskip, ih]
      simp only [List.length_cons]
      ring_nf
    · rw [if_neg hskip, if_neg hskip, ih]
      simp only [List.length_cons, List.cons_append]
      ring_nf

theorem executeLoop_executed_bounds {σ : Type} (run : Pipeline → σ → ExitStatus × σ)
    (ops : List LogicalOp) (l : List Pipeline) :
    ∀ (i : Nat) (last : ExitStatus) (st : σ) (lec : Int) (j : Nat),
      j ∈ (executeLoop run ops l i last st lec).2.2.2 → i ≤ j ∧ j < i + l.length := by
  induction l with
  | nil => intro i last st lec j hj; simp [executeLoop] at hj
  | cons p rest ih =>
    intro i last st lec j hj
    rw [executeLoop_cons] at hj
    split_ifs at hj with hskip
    · have := ih (i + 1) last st lec j hj
      simp only [List.length_cons]
      omega
    · simp only [List.mem_cons] at hj
      rcases hj with rfl | hj
      · simp only [List.length_cons]; omega
      · have := ih (i + 1) _ _ _ j hj
        simp only [List.length_cons]
        omega

/-- **C6**: the executor evaluates pipelines left to right and, for each
index `i > 0` whose operator exists, executes pipeline `i` exactly
unless `operators[i-1]` is `And` and the most recently executed
pipeline's status (the status of running the first `i` pipelines) was
non-zero, or `Or` and that status was zero; a `Sequence` operator never
causes a skip. -/
theorem executor_skip_rule {σ : Type} (run : Pipeline → σ → ExitStatus × σ)
    (cl : CommandLine) (st : σ) (lec : Int)
    (i : Nat) (hi0 : 0 < i) (hil : i < cl.pipelines.length) (op : LogicalOp)
    (hop : cl.operators.get? (i - 1) = some op) :
    i ∈ (Executor.execute run cl st lec).2.2.2
      ↔ ¬ ((op = LogicalOp.And
              ∧ (Executor.execute run ⟨cl.pipelines.take i, cl.operators⟩ st lec).1.is_success
                  = false)
          ∨ (op = LogicalOp.Or
              ∧ (Executor.execute run ⟨cl.pipelines.take i, cl.operators⟩ st lec).1.is_success
                  = true)) := by
  obtain ⟨pipes, ops⟩ := cl
  simp only at hop hil ⊢
  have hpne : pipes ≠ [] := by
    intro h; rw [h] at hil; simp at hil
  have htne : (pipes.take i).isEmpty = false := by
    cases hh : pipes.take i with
    | nil =>
      exfalso
      have hlen0 : (pipes.take i).length = 0 := by rw [hh]; rfl
      rw [List.length_take] at hlen0
      omega
    | cons a l => rfl
  have hfullne : pipes.isEmpty = false := by
    cases hh : pipes with
    | nil => exact absurd hh hpne
    | cons a l => rfl
  unfold Executor.execute CommandLine.is_empty
  simp only [htne, hfullne, Bool.false_eq_true, if_false, if_neg]
  have hsplit := executeLoop_append run ops (pipes.take i) (pipes.drop i)
    0 ExitStatus.success st lec
  rw [List.take_append_drop] at hsplit
  have hlen_take : (pipes.take i).length = i := by
    simp [List.length_take]; omega
  rw [hlen_take] at hsplit
  rw [hsplit]
  simp only [Nat.zero_add]
  set A := executeLoop run ops (pipes.take i) 0 ExitStatus.success st lec with hA
  have hdrop : pipes.drop i = pipes[i] :: pipes.drop (i + 1) :=
    List.drop_eq_getElem_cons hil
  rw [hdrop, executeLoop_cons]
  have hnotinA : i ∉ A.2.2.2 := by
    intro hmem
    have := executeLoop_executed_bounds run ops (pipes.take i) 0 ExitStatus.success st lec
      i hmem
    omega
  have hskipval : skipDecision ops i A.1
      = (if op = LogicalOp.And then !A.1.is_success
         else if op = LogicalOp.Or then A.1.is_success
         else false) := by
    simp only [skipDecision, hi0, if_true, hop]
    cases op <;> simp
  have hmem_iff : (i ∈ A.2.2.2
        ++ (if skipDecision ops i A.1 = true then
              executeLoop run ops (pipes.drop (i + 1)) (i + 1) A.1 A.2.1 A.2.2.1
            else
              ((executeLoop run ops (pipes.drop (i + 1)) (i + 1) (run pipes[i] A.2.1).1
                  (run pipes[i] A.2.1).2 (run pipes[i] A.2.1).1.code).1,
               (executeLoop run ops (pipes.drop (i + 1)) (i + 1) (run pipes[i] A.2.1).1
                  (run pipes[i] A.2.1).2 (run pipes[i] A.2.1).1.code).2.1,
               (executeLoop run ops (pipes.drop (i + 1)) (i + 1) (run pipes[i] A.2.1).1
                  (run pipes[i] A.2.1).2 (run pipes[i] A.2.1).1.code).2.2.1,
               i :: (executeLoop run ops (pipes.drop (i + 1)) (i + 1) (run pipes[i] A.2.1).1
                  (run pipes[i] A.2.1).2 (run pipes[i] A.2.1).1.code).2.2.2)).2.2.2)
      ↔ skipDecision ops i A.1 = false := by
    cases hB : skipDecision ops i A.1 with
    | true =>
      simp only [hB, if_true, List.mem_append]
      constructor
      · rintro (hmem | hmem)
        · exact absurd hmem hnotinA
        · have := executeLoop_executed_bounds run ops (pipes.drop (i + 1)) (i + 1)
            A.1 A.2.1 A.2.2.1 i hmem
          omega
      · intro hfalse; cases hfalse
    | false =>
      simp only [hB, Bool.false_eq_true, if_false, if_neg, List.mem_append, List.mem_cons]
      simp
  rw [hmem_iff, hskipval]
  cases op with
  | And => simp
  | Or => simp
  | Sequence => simp

/-- Demo pipeline semantics for the C6 scenarios, following the §4.5
built-in contracts of `csh/builtins.rs`: `false` exits 1, `true` exits
0, `echo` exits 0 and appends its space-joined arguments to the output;
the state is the list of outputs produced. -/
def runDemo (p : Pipeline) (out : List (List Char)) : ExitStatus × List (List Char) :=
  match p.commands with
  | [c] =>
    if c.name = ['f', 'a', 'l', 's', 'e'] then (ExitStatus.failure 1, out)
    else if c.name = ['t', 'r', 'u', 'e'] then (ExitStatus.success, out)
    else if c.name = ['e', 'c', 'h', 'o'] then
      (ExitStatus.success, out ++ [(c.args.intersperse [' ']).flatten])
    else (ExitStatus.success, out)
  | _ => (ExitStatus.success, out)

/-- The command line `false && echo A`. -/
def clFalseAndEcho : CommandLine :=
  ⟨[⟨[Command.with_args ['f', 'a', 'l', 's', 'e'] []], none, [], false⟩,
    ⟨[Command.with_args ['e', 'c', 'h', 'o'] [['A']]], none, [], false⟩],
   [LogicalOp.And]⟩

/-- The command line `false || echo B`. -/
def clFalseOrEcho : CommandLine :=
  ⟨[⟨[Command.with_args ['f', 'a', 'l', 's', 'e'] []], none, [], false⟩,
    ⟨[Command.with_args ['e', 'c', 'h', 'o'] [['B']]], none, [], false⟩],
   [LogicalOp.Or]⟩

/-- Witness for C6: under the demo semantics, `false && echo A` skips
the `echo` pipeline and produces no output, and `false || echo B`
executes `echo B` and produces exactly its output. -/
theorem executor_skip_rule_witness :
    (1 ∉ (Executor.execute runDemo clFalseAndEcho [] 0).2.2.2
       ∧ (Executor.execute runDemo clFalseAndEcho [] 0).2.1 = [])
    ∧ (1 ∈ (Executor.execute runDemo clFalseOrEcho [] 0).2.2.2
       ∧ (Executor.execute runDemo clFalseOrEcho [] 0).2.1 = [['B']]) := by
  refine ⟨⟨?_, by decide⟩, ?_, by decide⟩
  · intro hmem
    have h := (executor_skip_rule runDemo clFalseAndEcho [] 0 1 (by decide) (by decide)
      LogicalOp.And (by decide)).mp hmem
    exact h (Or.inl ⟨rfl, by decide⟩)
  · exact (executor_skip_rule runDemo clFalseOrEcho [] 0 1 (by decide) (by decide)
      LogicalOp.Or (by decide)).mpr (by decide)

/-! ## Lexer (`csh/lexer.rs`)

Input is a `List Char`.  Named constants stand for the quote, backslash,
newline, tab, carriage-return and brace characters.  The Rust lexer's
`peeked_token` cache makes `peek` the pure function returning what
`next_token` would produce, so the embedding threads the remaining
input and defines `peek` from `next_token`.  The two reader loops that
consume subsidiary tokens (`read_double_quoted_string`'s variable
handling, `read_word`'s quote/variable handling) take fuel, initialised
above the input length at each call site; every loop iteration consumes
at least one character, so the fuel never runs out there.  Rust's
Unicode character classes (`is_alphabetic`, `is_alphanumeric`) are
modelled by their ASCII restrictions. -/

def squoteCh : Char := Char.ofNat 39
def dquoteCh : Char := Char.ofNat 34
def bslashCh : Char := Char.ofNat 92
def nlCh : Char := Char.ofNat 10
def tabCh : Char := Char.ofNat 9
def crCh : Char := Char.ofNat 13
def lbraceCh : Char := Char.ofNat 123
def rbraceCh : Char := Char.ofNat 125

/-- `Token` (`csh/lexer.rs`, lines 10-57). -/
inductive Token
  | Word (s : List Char)
  | QuotedString (s : List Char)
  | Variable (s : List Char)
  | Pipe
  | And
  | Or
  | Semicolon
  | Newline
  | RedirectOut
  | AppendOut
  | RedirectIn
  | RedirectErr
  | AppendErr
  | RedirectBoth
  | AppendBoth
  | Background
  | Equals
  | LeftParen
  | RightParen
  | LeftBrace
  | RightBrace
  | Comment (s : List Char)
  | Eof
deriving DecidableEq, Repr

/-- `LexerError` (`csh/lexer.rs`, lines 61-66). -/
inductive LexerError
  | UnterminatedString (quote : Char)
  | UnterminatedVariable
  | InvalidEscape (c : Char)
  | UnexpectedChar (c : Char)
deriving DecidableEq, Repr

deriving instance DecidableEq for Except

/-- Return for the fuel/error monad `Option (Except ε ·)`. -/
def oret {ε α : Type} (a : α) : Option (Except ε α) := some (.ok a)

/-- Raise for the fuel/error monad. -/
def oerr {ε α : Type} (e : ε) : Option (Except ε α) := some (.error e)

/-- Bind for the fuel/error monad: fuel exhaustion and errors propagate. -/
def obind {ε α β : Type} (x : Option (Except ε α)) (f : α → Option (Except ε β)) :
    Option (Except ε β) :=
  match x with
  | none => none
  | some (.error e) => some (.error e)
  | some (.ok a) => f a

/-- The whitespace skipped by the lexer: space, tab, carriage return
(`skip_whitespace`, lines 236-244). -/
def isWhitespaceCh (c : Char) : Bool := c = ' ' || c = tabCh || c = crCh

/-- `skip_whitespace`. -/
def skipWhitespace : List Char → List Char
  | [] => []
  | c :: rest => if isWhitespaceCh c then skipWhitespace rest else c :: rest

/-- `consume_until_newline` (lines 246-255): the comment text and the rest. -/
def consumeUntilNewline : List Char → List Char × List Char
  | [] => ([], [])
  | c :: rest =>
    if c = nlCh then ([], c :: rest)
    else
      let (s, r) := consumeUntilNewline rest
      (c :: s, r)

/-- The `${VAR}` loop of `read_variable` (lines 348-363), after the
opening brace: the name up to `}` or an unterminated-variable error. -/
def readVarBrace : List Char → Except LexerError (List Char × List Char)
  | [] => .error .UnterminatedVariable
  | c :: rest =>
    if c = rbraceCh then .ok ([], rest)
    else
      match readVarBrace rest with
      | .error e => .error e
      | .ok (n, r) => .ok (c :: n, r)

/-- The `$VAR` loop of `read_variable` (lines 365-374): the maximal
alphanumeric-or-underscore run. -/
def readVarName : List Char → List Char × List Char
  | [] => ([], [])
  | c :: rest =>
    if c.isAlphanum || c = '_' then
      let (n, r) := readVarName rest
      (c :: n, r)
    else ([], c :: rest)

/-- Embedding of `read_variable` (lines 342-397): the input starts at the
`$`. -/
def read_variable : List Char → Except LexerError (Token × List Char)
  | [] => .ok (.Word ['$'], [])
  | _ :: rest =>
    match rest with
    | [] => .ok (.Word ['$'], [])
    | c :: r2 =>
      if c = lbraceCh then
        match readVarBrace r2 with
        | .error e => .error e
        | .ok (n, r) => .ok (.Variable n, r)
      else if c.isAlpha || c = '_' then
        let (n, r) := readVarName (c :: r2)
        .ok (.Variable n, r)
      else if c = '?' then .ok (.Variable ['?'], r2)
      else if c = '$' then .ok (.Variable ['$'], r2)
      else if c.isDigit then .ok (.Variable [c], r2)
      else .ok (.Word ['$'], c :: r2)

/-- The scan loop of `read_single_quoted_string` (lines 261-273), after
the opening quote. -/
def readSingleGo : List Char → Except LexerError (List Char × List Char)
  | [] => .error (.UnterminatedString squoteCh)
  | c :: rest =>
    if c = squoteCh then .ok ([], rest)
    else
      match readSingleGo rest with
      | .error e => .error e
      | .ok (s, r) => .ok (c :: s, r)

/-- Embedding of `read_single_quoted_string` (lines 257-276): the input
starts at the opening quote. -/
def read_single_quoted_string (cs : List Char) : Except LexerError (Token × List Char) :=
  match cs with
  | [] => .error (.UnterminatedString squoteCh)
  | _ :: rest =>
    match readSingleGo rest with
    | .error e => .error e
    | .ok (s, r) => .ok (.QuotedString s, r)

/-- The scan loop of `read_double_quoted_string` (lines 282-337), after
the opening quote: honours the `\n \t \r \\ \" \$` escapes, preserves
unknown escapes as two characters, captures embedded variables as
`${NAME}` placeholders, and fails on an unterminated string. -/
def readDoubleGo : Nat → List Char → Option (Except LexerError (List Char × List Char))
  | 0, _ => none
  | _ + 1, [] => oerr (.UnterminatedString dquoteCh)
  | fuel + 1, c :: rest =>
    if c = dquoteCh then oret ([], rest)
    else if c = bslashCh then
      match rest with
      | [] => oerr (.UnterminatedString dquoteCh)
      | e :: r2 =>
        let piece : List Char :=
          if e = 'n' then [nlCh]
          else if e = 't' then [tabCh]
          else if e = 'r' then [crCh]
          else if e = bslashCh then [bslashCh]
          else if e = dquoteCh then [dquoteCh]
          else if e = '$' then ['$']
          else [bslashCh, e]
        obind (readDoubleGo fuel r2) fun sr => oret (piece ++ sr.1, sr.2)
    else if c = '$' then
      match read_variable (c :: rest) with
      | .error err => oerr err
      | .ok (t, r2) =>
        let piece : List Char :=
          match t with
          | .Variable v => '$' :: lbraceCh :: (v ++ [rbraceCh])
          | _ => []
        obind (readDoubleGo fuel r2) fun sr => oret (piece ++ sr.1, sr.2)
    else obind (readDoubleGo fuel rest) fun sr => oret (c :: sr.1, sr.2)

/-- Embedding of `read_double_quoted_string` (lines 278-340): the input
starts at the opening quote. -/
def read_double_quoted_string (fuel : Nat) (cs : List Char) :
    Option (Except LexerError (Token × List Char)) :=
  match cs with
  | [] => oerr (.UnterminatedString dquoteCh)
  | _ :: rest => obind (readDoubleGo fuel rest) fun sr => oret (.QuotedString sr.1, sr.2)

/-- The word terminators of `read_word` (lines 404-406). -/
def isWordBreak (c : Char) : Bool :=
  c = ' ' || c = tabCh || c = crCh || c = nlCh || c = '|' || c = '&' || c = ';' ||
  c = '>' || c = '<' || c = '(' || c = ')' || c = lbraceCh || c = rbraceCh || c = '#'

/-- The scan loop of `read_word` (lines 399-443): backslash preserves
the next character, embedded quoted strings are concatenated, embedded
variables appear as `${NAME}` placeholders (a lone `$` as itself). -/
def readWordGo : Nat → List Char → Option (Except LexerError (List Char × List Char))
  | 0, _ => none
  | _ + 1, [] => oret ([], [])
  | fuel + 1, c :: rest =>
    if isWordBreak c then oret ([], c :: rest)
    else if c = bslashCh then
      match rest with
      | [] => oret ([], [])
      | e :: r2 => obind (readWordGo fuel r2) fun sr => oret (e :: sr.1, sr.2)
    else if c = squoteCh then
      match read_single_quoted_string (c :: rest) with
      | .error e => oerr e
      | .ok (t, r2) =>
        let piece : List Char := match t with | .QuotedString s => s | _ => []
        obind (readWordGo fuel r2) fun sr => oret (piece ++ sr.1, sr.2)
    else if c = dquoteCh then
      match read_double_quoted_string fuel (c :: rest) with
      | none => none
      | some (.error e) => oerr e
      | some (.ok (t, r2)) =>
        let piece : List Char := match t with | .QuotedString s => s | _ => []
        obind (readWordGo fuel r2) fun sr => oret (piece ++ sr.1, sr.2)
    else if c = '$' then
      match read_variable (c :: rest) with
      | .error e => oerr e
      | .ok (t, r2) =>
        let piece : List Char :=
          match t with
          | .Variable v => '$' :: lbraceCh :: (v ++ [rbraceCh])
          | .Word w => w
          | _ => []
        obind (readWordGo fuel r2) fun sr => oret (piece ++ sr.1, sr.2)
    else obind (readWordGo fuel rest) fun sr => oret (c :: sr.1, sr.2)

/-- Embedding of `read_word` (lines 399-443). -/
def read_word (fuel : Nat) (cs : List Char) : Option (Except LexerError (Token × List Char)) :=
  obind (readWordGo fuel cs) fun sr => oret (.Word sr.1, sr.2)

/-- The dispatch of `next_token` (lines 116-214) on the
whitespace-skipped input, by the next character in the source's order. -/
def nextTokenDispatch : List Char → Option (Except LexerError (Token × List Char))
  | [] => oret (.Eof, [])
  | c :: rest =>
    if c = nlCh then oret (.Newline, rest)
    else if c = '#' then
      let sr := consumeUntilNewline rest
      oret (.Comment sr.1, sr.2)
    else if c = '|' then
      if rest.head? = some '|' then oret (.Or, rest.tail) else oret (.Pipe, rest)
    else if c = '&' then
      if rest.head? = some '&' then oret (.And, rest.tail)
      else if rest.head? = some '>' then
        (if rest.tail.head? = some '>' then oret (.AppendBoth, rest.tail.tail)
         else oret (.RedirectBoth, rest.tail))
      else oret (.Background, rest)
    else if c = ';' then oret (.Semicolon, rest)
    else if c = '>' then
      if rest.head? = some '>' then oret (.AppendOut, rest.tail)
      else oret (.RedirectOut, rest)
    else if c = '<' then oret (.RedirectIn, rest)
    else if c = '2' then
      if rest.head? = some '>' then
        (if rest.tail.head? = some '>' then oret (.AppendErr, rest.tail.tail)
         else oret (.RedirectErr, rest.tail))
      else read_word (rest.length + 2) (c :: rest)
    else if c = '=' then oret (.Equals, rest)
    else if c = '(' then oret (.LeftParen, rest)
    else if c = ')' then oret (.RightParen, rest)
    else if c = lbraceCh then oret (.LeftBrace, rest)
    else if c = rbraceCh then oret (.RightBrace, rest)
    else if c = squoteCh then
      match read_single_quoted_string (c :: rest) with
      | .error e => oerr e
      | .ok tr => oret tr
    else if c = dquoteCh then read_double_quoted_string (rest.length + 2) (c :: rest)
    else if c = '$' then
      match read_variable (c :: rest) with
      | .error e => oerr e
      | .ok tr => oret tr
    else read_word (rest.length + 2) (c :: rest)

/-- Embedding of `next_token` (lines 108-215): skip whitespace, then
dispatch on the next character. -/
def next_token (cs : List Char) : Option (Except LexerError (Token × List Char)) :=
  nextTokenDispatch (skipWhitespace cs)

/-- The loop of `tokenize` (lines 218-229), with fuel: each non-`Eof`
token consumes at least one character, so `length + 1` steps suffice. -/
def tokenizeGo : Nat → List Char → Option (Except LexerError (List Token))
  | 0, _ => none
  | fuel + 1, cs =>
    match next_token cs with
    | none => none
    | some (.error e) => oerr e
    | some (.ok (t, r)) =>
      if t = Token.Eof then oret [Token.Eof]
      else obind (tokenizeGo fuel r) fun ts => oret (t :: ts)

/-- Embedding of `tokenize` (lines 218-229). -/
def tokenize (cs : List Char) : Option (Except LexerError (List Token)) :=
  tokenizeGo (cs.length + 1) cs

/-- The errors the lexer can actually produce: an unterminated string or
an unterminated variable reference. -/
def lexErrAllowed (e : LexerError) : Prop :=
  (∃ q, e = LexerError.UnterminatedString q) ∨ e = LexerError.UnterminatedVariable

theorem obind_err {ε α β : Type} {x : Option (Except ε α)} {f : α → Option (Except ε β)}
    {e : ε} (h : obind x f = some (.error e)) :
    x = some (.error e) ∨ ∃ a, x = some (.ok a) ∧ f a = some (.error e) := by
  cases x with
  | none => simp [obind] at h
  | some r =>
    cases r with
    | error e2 =>
      simp only [obind] at h
      injection h with h
      injection h with h
      left
      rw [h]
    | ok a => exact Or.inr ⟨a, rfl, h⟩

theorem readVarBrace_err {cs : List Char} {e : LexerError}
    (h : readVarBrace cs = .error e) : e = LexerError.UnterminatedVariable := by
  induction cs with
  | nil =>
    simp only [readVarBrace] at h
    injection h with h
    exact h.symm
  | cons c rest ih =>
    simp only [readVarBrace] at h
    split_ifs at h
    cases hr : readVarBrace rest with
    | error e2 =>
      rw [hr] at h
      injection h with h
      subst h
      exact ih hr
    | ok nr => rw [hr] at h; simp at h

theorem read_variable_err {cs : List Char} {e : LexerError}
    (h : read_variable cs = .error e) : e = LexerError.UnterminatedVariable := by
  match cs with
  | [] => simp [read_variable] at h
  | _ :: rest =>
    match rest with
    | [] => simp [read_variable] at h
    | c :: r2 =>
      simp only [read_variable] at h
      split_ifs at h <;> try simp at h
      case pos =>
        cases hb : readVarBrace r2 with
        | error e2 =>
          rw [hb] at h
          injection h with h
          exact h ▸ readVarBrace_err hb
        | ok nr => rw [hb] at h; simp at h

theorem readSingleGo_err {cs : List Char} {e : LexerError}
    (h : readSingleGo cs = .error e) : e = LexerError.UnterminatedString squoteCh := by
  induction cs with
  | nil =>
    simp only [readSingleGo] at h
    injection h with h
    exact h.symm
  | cons c rest ih =>
    simp only [readSingleGo] at h
    split_ifs at h
    cases hr : readSingleGo rest with
    | error e2 =>
      rw [hr] at h
      injection h with h
      subst h
      exact ih hr
    | ok sr => rw [hr] at h; simp at h

theorem read_single_err {cs : List Char} {e : LexerError}
    (h : read_single_quoted_string cs = .error e) :
    e = LexerError.UnterminatedString squoteCh := by
  match cs with
  | [] =>
    simp only [read_single_quoted_string] at h
    injection h with h
    exact h.symm
  | _ :: rest =>
    simp only [read_single_quoted_string] at h
    cases hr : readSingleGo rest with
    | error e2 =>
      rw [hr] at h
      injection h with h
      exact h ▸ readSingleGo_err hr
    | ok sr => rw [hr] at h; simp at h

theorem readDoubleGo_err : ∀ {fuel : Nat} {cs : List Char} {e : LexerError},
    readDoubleGo fuel cs = some (.error e) → lexErrAllowed e := by
  intro fuel
  induction fuel with
  | zero => intro cs e h; simp [readDoubleGo] at h
  | succ fuel ih =>
    intro cs e h
    match cs with
    | [] =>
      simp only [readDoubleGo, oerr] at h
      injection h with h
      injection h with h
      exact Or.inl ⟨_, h.symm⟩
    | c :: rest =>
      simp only [readDoubleGo] at h
      split_ifs at h <;> try simp [oret] at h
      case pos =>
        -- backslash branch
        match rest with
        | [] =>
          simp only [oerr] at h
          injection h with h
          injection h with h
          exact Or.inl ⟨_, h.symm⟩
        | e2 :: r2 =>
          simp only at h
          rcases obind_err h with h1 | ⟨a, _, h2⟩
          · exact ih h1
          · simp [oret] at h2
      case pos =>
        -- variable branch
        cases hv : read_variable (c :: rest) with
        | error err =>
          rw [hv] at h
          simp only [oerr] at h
          injection h with h
          injection h with h
          exact Or.inr (h ▸ read_variable_err hv)
        | ok tr =>
          rw [hv] at h
          rcases obind_err h with h1 | ⟨a, _, h2⟩
          · exact ih h1
          · simp [oret] at h2
      case neg =>
        rcases obind_err h with h1 | ⟨a, _, h2⟩
        · exact ih h1
        · simp [oret] at h2

theorem read_double_err {fuel : Nat} {cs : List Char} {e : LexerError}
    (h : read_double_quoted_string fuel cs = some (.error e)) : lexErrAllowed e := by
  match cs with
  | [] =>
    simp only [read_double_quoted_string, oerr] at h
    injection h with h
    injection h with h
    exact Or.inl ⟨_, h.symm⟩
  | _ :: rest =>
    simp only [read_double_quoted_string] at h
    rcases obind_err h with h1 | ⟨a, _, h2⟩
    · exact readDoubleGo_err h1
    · simp [oret] at h2

theorem readWordGo_err : ∀ {fuel : Nat} {cs : List Char} {e : LexerError},
    readWordGo fuel cs = some (.error e) → lexErrAllowed e := by
  intro fuel
  induction fuel with
  | zero => intro cs e h; simp [readWordGo] at h
  | succ fuel ih =>
    intro cs e h
    match cs with
    | [] => simp [readWordGo, oret] at h
    | c :: rest =>
      simp only [readWordGo] at h
      split_ifs at h <;> try simp [oret] at h
      case pos =>
        -- backslash branch
        match rest with
        | [] => simp [oret] at h
        | e2 :: r2 =>
          simp only at h
          rcases obind_err h with h1 | ⟨a, _, h2⟩
          · exact ih h1
          · simp [oret] at h2
      case pos =>
        -- single-quote branch
        cases hq : read_single_quoted_string (c :: rest) with
        | error e2 =>
          rw [hq] at h
          simp only [oerr] at h
          injection h with h
          injection h with h
          exact Or.inl ⟨_, h ▸ read_single_err hq⟩
        | ok tr =>
          rw [hq] at h
          rcases obind_err h with h1 | ⟨a, _, h2⟩
          · exact ih h1
          · simp [oret] at h2
      case pos =>
        -- double-quote branch
        cases hq : read_double_quoted_string fuel (c :: rest) with
        | none => rw [hq] at h; simp at h
        | some r =>
          cases r with
          | error e2 =>
            rw [hq] at h
            simp only [oerr] at h
            injection h with h
            injection h with h
            exact h ▸ read_double_err hq
          | ok tr =>
            rw [hq] at h
            simp only at h
            rcases obind_err h with h1 | ⟨a, _, h2⟩
            · exact ih h1
            · simp [oret] at h2
      case pos =>
        -- variable branch
        cases hv : read_variable (c :: rest) with
        | error err =>
          rw [hv] at h
          simp only [oerr] at h
          injection h with h
          injection h with h
          exact Or.inr (h ▸ read_variable_err hv)
        | ok tr =>
          rw [hv] at h
          simp only at h
          rcases obind_err h with h1 | ⟨a, _, h2⟩
          · exact ih h1
          · simp [oret] at h2
      case neg =>
        rcases obind_err h with h1 | ⟨a, _, h2⟩
        · exact ih h1
        · simp [oret] at h2

theorem read_word_err {fuel : Nat} {cs : List Char} {e : LexerError}
    (h : read_word fuel cs = some (.error e)) : lexErrAllowed e := by
  simp only [read_word] at h
  rcases obind_err h with h1 | ⟨a, _, h2⟩
  · exact readWordGo_err h1
  · simp [oret] at h2

theorem next_token_err {cs : List Char} {e : LexerError}
    (h : next_token cs = some (.error e)) : lexErrAllowed e := by
  unfold next_token at h
  cases hs : skipWhitespace cs with
  | nil => rw [hs] at h; exact absurd h (by simp [nextTokenDispatch, oret])
  | cons c rest =>
    rw [hs] at h
    simp only [nextTokenDispatch] at h
    by_cases h1 : c = nlCh
    rotate_left
    rw [if_neg h1] at h
    by_cases h2 : c = '#'
    rotate_left
    rw [if_neg h2] at h
    by_cases h3 : c = '|'
    rotate_left
    rw [if_neg h3] at h
    by_cases h4 : c = '&'
    rotate_left
    rw [if_neg h4] at h
    by_cases h5 : c = ';'
    rotate_left
    rw [if_neg h5] at h
    by_cases h6 : c = '>'
    rotate_left
    rw [if_neg h6] at h
    by_cases h7 : c = '<'
    rotate_left
    rw [if_neg h7] at h
    by_cases h8 : c = '2'
    rotate_left
    rw [if_neg h8] at h
    by_cases h9 : c = '='
    rotate_left
    rw [if_neg h9] at h
    by_cases h10 : c = '('
    rotate_left
    rw [if_neg h10] at h
    by_cases h11 : c = ')'
    rotate_left
    rw [if_neg h11] at h
    by_cases h12 : c = lbraceCh
    rotate_left
    rw [if_neg h12] at h
    by_cases h13 : c = rbraceCh
    rotate_left
    rw [if_neg h13] at h
    by_cases h14 : c = squoteCh
    rotate_left
    rw [if_neg h14] at h
    by_cases h15 : c = dquoteCh
    rotate_left
    rw [if_neg h15] at h
    by_cases h16 : c = '$'
    rotate_left
    rw [if_neg h16] at h
    -- fallthrough: read_word
    · exact read_word_err h
    -- newline
    · rw [if_pos h1] at h; exact absurd h (by simp [oret])
    -- '#'
    · rw [if_pos h2] at h; exact absurd h (by simp [oret])
    -- '|'
    · rw [if_pos h3] at h
      split_ifs at h <;> exact absurd h (by simp [oret])
    -- '&'
    · rw [if_pos h4] at h
      split_ifs at h <;> exact absurd h (by simp [oret])
    -- ';'
    · rw [if_pos h5] at h; exact absurd h (by simp [oret])
    -- '>'
    · rw [if_pos h6] at h
      split_ifs at h <;> exact absurd h (by simp [oret])
    -- '<'
    · rw [if_pos h7] at h; exact absurd h (by simp [oret])
    -- '2'
    · rw [if_pos h8] at h
      by_cases h8a : rest.head? = some '>'
      · rw [if_pos h8a] at h
        split_ifs at h <;> exact absurd h (by simp [oret])
      · rw [if_neg h8a] at h
        exact read_word_err h
    -- '='
    · rw [if_pos h9] at h; exact absurd h (by simp [oret])
    -- '('
    · rw [if_pos h10] at h; exact absurd h (by simp [oret])
    -- ')'
    · rw [if_pos h11] at h; exact absurd h (by simp [oret])
    -- '{'
    · rw [if_pos h12] at h; exact absurd h (by simp [oret])
    -- '}'
    · rw [if_pos h13] at h; exact absurd h (by simp [oret])
    -- single quote
    · rw [if_pos h14] at h
      cases hq : read_single_quoted_string (c :: rest) with
      | error e2 =>
        rw [hq] at h
        injection h with h
        injection h with h
        exact Or.inl ⟨_, h ▸ read_single_err hq⟩
      | ok tr => rw [hq] at h; exact absurd h (by simp [oret])
    -- double quote
    · rw [if_pos h15] at h
      exact read_double_err h
    -- '$'
    · rw [if_pos h16] at h
      cases hv : read_variable (c :: rest) with
      | error err =>
        rw [hv] at h
        injection h with h
        injection h with h
        exact Or.inr (h ▸ read_variable_err hv)
      | ok tr => rw [hv] at h; exact absurd h (by simp [oret])

theorem tokenizeGo_err : ∀ {fuel : Nat} {cs : List Char} {e : LexerError},
    tokenizeGo fuel cs = some (.error e) → lexErrAllowed e := by
  intro fuel
  induction fuel with
  | zero => intro cs e h; simp [tokenizeGo] at h
  | succ fuel ih =>
    intro cs e h
    simp only [tokenizeGo] at h
    cases hn : next_token cs with
    | none => rw [hn] at h; simp at h
    | some r =>
      cases r with
      | error e2 =>
        rw [hn] at h
        injection h with h
        injection h with h
        exact h ▸ next_token_err hn
      | ok tr =>
        rw [hn] at h
        obtain ⟨t, rest⟩ := tr
        simp only at h
        split_ifs at h
        · simp [oret] at h
        · rcases obind_err h with h1 | ⟨a, _, h2⟩
          · exact ih h1
          · simp [oret] at h2

/-- **C10**: `tokenize` either succeeds or fails with an
`UnterminatedString` or `UnterminatedVariable` error; the
`UnexpectedChar` and `InvalidEscape` variants are never produced, so
every character outside an unterminated quote or unterminated `${…}`
reference is accepted (as an operator token or as part of a word). -/
theorem tokenize_error_kinds (cs : List Char) (e : LexerError)
    (h : tokenize cs = some (.error e)) :
    (∃ q, e = LexerError.UnterminatedString q) ∨ e = LexerError.UnterminatedVariable :=
  tokenizeGo_err h

/-- Witness for C10 at the unterminated single quote `'a`: the error is
`UnterminatedString '\''`. -/
theorem tokenize_error_kinds_witness :
    (∃ q, LexerError.UnterminatedString squoteCh = LexerError.UnterminatedString q)
    ∨ LexerError.UnterminatedString squoteCh = LexerError.UnterminatedVariable :=
  tokenize_error_kinds [squoteCh, 'a'] (LexerError.UnterminatedString squoteCh) (by decide)

/-! ## Parser (`csh/parser.rs`)

The Rust parser pulls tokens lazily from the lexer through
`peek`/`next_token`; the embedding threads the remaining character list
and obtains tokens with `next_token`, wrapping lexer errors in
`ParseError::LexerError` as the `From` conversion of the source does.
Every loop takes fuel (initialised above the input length at `parse`);
each loop iteration consumes at least one token of at least one
character, so the fuel never runs out. -/

/-- `ParseError` (`csh/parser.rs`, lines 10-17).  `UnexpectedToken`
carries the token whose `Debug` rendering the source stores;
`InvalidSyntax` carries the message text. -/
inductive ParseError
  | LexerError (e : Connexio.LexerError)
  | UnexpectedToken (t : Token)
  | UnexpectedEof
  | MissingRedirectTarget
  | EmptyPipeline
  | InvalidSyntax (msg : List Char)
deriving DecidableEq, Repr

/-- The message of the mid-pipeline stdin-redirect error
(`parser.rs`, line 150). -/
def middlePipeMsg : List Char := ("Cannot use < in middle of pipeline").toList

/-- `Lexer::peek` through the parser: the token `next_token` would
yield, with the lexer error converted by `From<LexerError>`. -/
def peekTok (cs : List Char) : Option (Except ParseError Token) :=
  match next_token cs with
  | none => none
  | some (.error e) => some (.error (.LexerError e))
  | some (.ok tr) => some (.ok tr.1)

/-- `Lexer::next_token` through the parser, with the error conversion. -/
def nextTok (cs : List Char) : Option (Except ParseError (Token × List Char)) :=
  match next_token cs with
  | none => none
  | some (.error e) => some (.error (.LexerError e))
  | some (.ok tr) => some (.ok tr)

/-- `skip_newlines` (`parser.rs`, lines 285-290). -/
def skip_newlines : Nat → List Char → Option (Except ParseError (List Char))
  | 0, _ => none
  | fuel + 1, cs =>
    obind (peekTok cs) fun t =>
    if t = Token.Newline then
      obind (nextTok cs) fun tr => skip_newlines fuel tr.2
    else oret cs

/-- The redirect kind of a redirect-operator token (`parse_redirect`,
lines 261-270). -/
def redirectTypeOf : Token → Option RedirectType
  | Token.RedirectOut => some RedirectType.StdoutOverwrite
  | Token.AppendOut => some RedirectType.StdoutAppend
  | Token.RedirectIn => some RedirectType.StdinRead
  | Token.RedirectErr => some RedirectType.StderrOverwrite
  | Token.AppendErr => some RedirectType.StderrAppend
  | Token.RedirectBoth => some RedirectType.BothOverwrite
  | Token.AppendBoth => some RedirectType.BothAppend
  | _ => none

/-- `format!("${{{}}}", var)`: the `${NAME}` placeholder text. -/
def varRefText (v : List Char) : List Char := '$' :: lbraceCh :: (v ++ [rbraceCh])

/-- Embedding of `parse_redirect` (`parser.rs`, lines 259-283). -/
def parse_redirect (cs : List Char) : Option (Except ParseError (Redirect × List Char)) :=
  obind (nextTok cs) fun tr =>
  match redirectTypeOf tr.1 with
  | some rt =>
    obind (nextTok tr.2) fun tr2 =>
    match tr2.1 with
    | Token.Word w => oret (⟨rt, w⟩, tr2.2)
    | Token.QuotedString s2 => oret (⟨rt, s2⟩, tr2.2)
    | Token.Variable v => oret (⟨rt, varRefText v⟩, tr2.2)
    | Token.Eof => oerr ParseError.MissingRedirectTarget
    | t2 => oerr (ParseError.UnexpectedToken t2)
  | none => oerr (ParseError.UnexpectedToken tr.1)

/-- `str::split_once('=')`: the text before and after the first `=`. -/
def splitOnceEq : List Char → Option (List Char × List Char)
  | [] => none
  | c :: rest =>
    if c = '=' then some ([], rest)
    else (splitOnceEq rest).map (fun p => (c :: p.1, p.2))

/-- The environment-assignment loop of `parse_command` (`parser.rs`,
lines 182-193): leading `=`-containing words while no name is set
(the name is always empty during this loop). -/
def parseCmdEnv : Nat → List (List Char × List Char) → List Char →
    Option (Except ParseError (List (List Char × List Char) × List Char))
  | 0, _, _ => none
  | fuel + 1, acc, cs =>
    obind (peekTok cs) fun t =>
    match t with
    | Token.Word w =>
      if w.contains '=' then
        obind (nextTok cs) fun tr =>
        match splitOnceEq w with
        | some p => parseCmdEnv fuel (acc ++ [p]) tr.2
        | none => parseCmdEnv fuel acc tr.2
      else oret (acc, cs)
    | _ => oret (acc, cs)

/-- The name/argument/redirect loop of `parse_command` (`parser.rs`,
lines 196-236). -/
def parseCmdArgs : Nat → List Char → List (List Char) → List Redirect → List Char →
    Option (Except ParseError ((List Char × List (List Char) × List Redirect) × List Char))
  | 0, _, _, _, _ => none
  | fuel + 1, name, args, rds, cs =>
    obind (peekTok cs) fun t =>
    match t with
    | Token.Word w =>
      obind (nextTok cs) fun tr =>
      if name.isEmpty then parseCmdArgs fuel w args rds tr.2
      else parseCmdArgs fuel name (args ++ [w]) rds tr.2
    | Token.QuotedString s2 =>
      obind (nextTok cs) fun tr =>
      if name.isEmpty then parseCmdArgs fuel s2 args rds tr.2
      else parseCmdArgs fuel name (args ++ [s2]) rds tr.2
    | Token.Variable v =>
      obind (nextTok cs) fun tr =>
      if name.isEmpty then parseCmdArgs fuel (varRefText v) args rds tr.2
      else parseCmdArgs fuel name (args ++ [varRefText v]) rds tr.2
    | Token.RedirectOut | Token.AppendOut | Token.RedirectIn | Token.RedirectErr
    | Token.AppendErr | Token.RedirectBoth | Token.AppendBoth =>
      obind (parse_redirect cs) fun rr =>
      parseCmdArgs fuel name args (rds ++ [rr.1]) rr.2
    | _ => oret ((name, args, rds), cs)

/-- Embedding of `parse_command` (`parser.rs`, lines 175-256): leading
assignments, then name/arguments/redirects; no name and no assignment
is an `EmptyPipeline` error; assignments without a name synthesise an
`export` command with `NAME=VALUE` arguments. -/
def parse_command (fuel : Nat) (cs : List Char) :
    Option (Except ParseError ((Command × List Redirect) × List Char)) :=
  obind (parseCmdEnv fuel [] cs) fun er =>
  obind (parseCmdArgs fuel [] [] [] er.2) fun ar =>
  let name := ar.1.1
  let args := ar.1.2.1
  let rds := ar.1.2.2
  let env := er.1
  if name.isEmpty && env.isEmpty then oerr ParseError.EmptyPipeline
  else if name.isEmpty then
    oret ((Command.with_args ['e', 'x', 'p', 'o', 'r', 't']
            (args ++ env.map (fun p => p.1 ++ '=' :: p.2)), rds), ar.2)
  else
    oret ((({ name := name, args := args, env_assignments := env } : Command), rds), ar.2)

/-- The redirect-sorting loop at the head of `parse_pipeline`
(`parser.rs`, lines 124-130): stdin redirects (the last one wins) go to
`stdin_redirect`, the rest are appended to `stdout_redirects`. -/
def splitRedirects : Option Redirect → List Redirect → List Redirect →
    Option Redirect × List Redirect
  | sr, srs, [] => (sr, srs)
  | sr, srs, r :: rest =>
    if r.redirect_type = RedirectType.StdinRead then splitRedirects (some r) srs rest
    else splitRedirects sr (srs ++ [r]) rest

/-- The redirect check after a pipe (`parser.rs`, lines 146-155): a
stdin redirect on a non-first command is an `InvalidSyntax` error, the
rest are pushed (onto the cleared list). -/
def pushNonStdin : List Redirect → List Redirect → Except ParseError (List Redirect)
  | acc, [] => .ok acc
  | acc, r :: rest =>
    if r.redirect_type = RedirectType.StdinRead then
      .error (ParseError.InvalidSyntax middlePipeMsg)
    else pushNonStdin (acc ++ [r]) rest

/-- The pipe-chain loop of `parse_pipeline` (`parser.rs`, lines
133-164): at each `|` the accumulated `stdout_redirects` are cleared
and the next command's redirects take their place; a trailing `&` sets
the background flag and closes the pipeline. -/
def parsePipeLoop : Nat → List Command → Option Redirect → List Redirect → List Char →
    Option (Except ParseError (Pipeline × List Char))
  | 0, _, _, _, _ => none
  | fuel + 1, cmds, sr, srs, cs =>
    obind (peekTok cs) fun t =>
    match t with
    | Token.Pipe =>
      obind (nextTok cs) fun tr =>
      obind (skip_newlines fuel tr.2) fun cs2 =>
      obind (parse_command fuel cs2) fun cr =>
      match pushNonStdin [] cr.1.2 with
      | .error e => oerr e
      | .ok srs2 => parsePipeLoop fuel (cmds ++ [cr.1.1]) sr srs2 cr.2
    | Token.Background =>
      obind (nextTok cs) fun tr => oret (⟨cmds, sr, srs, true⟩, tr.2)
    | _ => oret (⟨cmds, sr, srs, false⟩, cs)

/-- Embedding of `parse_pipeline` (`parser.rs`, lines 113-172). -/
def parse_pipeline (fuel : Nat) (cs : List Char) :
    Option (Except ParseError (Pipeline × List Char)) :=
  obind (parse_command fuel cs) fun cr =>
  parsePipeLoop fuel [cr.1.1] (splitRedirects none [] cr.1.2).1
    (splitRedirects none [] cr.1.2).2 cr.2

/-- The operator loop of `parse_command_line` (`parser.rs`, lines
74-107): `&&` and `||` demand a following pipeline; after `;` the line
may simply end (a newline, `;` or end of input follows); any other
token ends the loop. -/
def parseLineLoop : Nat → List Pipeline → List LogicalOp → List Char →
    Option (Except ParseError (CommandLine × List Char))
  | 0, _, _, _ => none
  | fuel + 1, pipes, ops, cs =>
    obind (peekTok cs) fun t =>
    match t with
    | Token.And =>
      obind (nextTok cs) fun tr =>
      obind (skip_newlines fuel tr.2) fun cs2 =>
      obind (parse_pipeline fuel cs2) fun pr =>
      parseLineLoop fuel (pipes ++ [pr.1]) (ops ++ [LogicalOp.And]) pr.2
    | Token.Or =>
      obind (nextTok cs) fun tr =>
      obind (skip_newlines fuel tr.2) fun cs2 =>
      obind (parse_pipeline fuel cs2) fun pr =>
      parseLineLoop fuel (pipes ++ [pr.1]) (ops ++ [LogicalOp.Or]) pr.2
    | Token.Semicolon =>
      obind (nextTok cs) fun tr =>
      obind (skip_newlines fuel tr.2) fun cs2 =>
      obind (peekTok cs2) fun t2 =>
      if t2 = Token.Eof ∨ t2 = Token.Newline ∨ t2 = Token.Semicolon then
        parseLineLoop fuel pipes ops cs2
      else
        obind (parse_pipeline fuel cs2) fun pr =>
        parseLineLoop fuel (pipes ++ [pr.1]) (ops ++ [LogicalOp.Sequence]) pr.2
    | _ => oret (⟨pipes, ops⟩, cs)

/-- Embedding of `parse_command_line` (`parser.rs`, lines 58-110). -/
def parse_command_line (fuel : Nat) (cs : List Char) :
    Option (Except ParseError (CommandLine × List Char)) :=
  obind (skip_newlines fuel cs) fun cs1 =>
  obind (peekTok cs1) fun t =>
  if t = Token.Eof then oret (CommandLine.new, cs1)
  else
    obind (parse_pipeline fuel cs1) fun pr =>
    parseLineLoop fuel [pr.1] [] pr.2

/-- Embedding of the convenience `parse` (`parser.rs`, lines 294-297),
with the fuel initialised above the input length. -/
def parse (cs : List Char) : Option (Except ParseError CommandLine) :=
  match parse_command_line (cs.length + 1) cs with
  | none => none
  | some (.error e) => some (.error e)
  | some (.ok cr) => some (.ok cr.1)

/-- Ok-provenance for the fuel/error bind: an ok result comes from an
ok intermediate. -/
theorem obind_ok {ε α β : Type} {x : Option (Except ε α)} {f : α → Option (Except ε β)}
    {b : β} (h : obind x f = some (.ok b)) :
    ∃ a, x = some (.ok a) ∧ f a = some (.ok b) := by
  match x with
  | none => simp [obind] at h
  | some (.error e) => simp [obind] at h
  | some (.ok a) => exact ⟨a, rfl, h⟩

/-- The operator loop keeps one more pipeline than operators: if it is
entered with `|ops| + 1 = |pipes|`, any command line it returns
satisfies the same relation (`parse_command_line` loop, `parser.rs`
lines 74-107, pushes a pipeline and an operator together). -/
theorem parseLineLoop_inv {fuel : Nat} : ∀ {pipes : List Pipeline} {ops : List LogicalOp}
    {cs : List Char} {res : CommandLine × List Char},
    ops.length + 1 = pipes.length →
    parseLineLoop fuel pipes ops cs = some (.ok res) →
    res.1.operators.length + 1 = res.1.pipelines.length := by
  induction fuel with
  | zero => intro _ _ _ _ _ h; simp [parseLineLoop] at h
  | succ fuel ih =>
    intro pipes ops cs res hinv h
    simp only [parseLineLoop] at h
    obtain ⟨t, -, h⟩ := obind_ok h
    cases t <;> try (
      simp only [oret, Option.some.injEq, Except.ok.injEq] at h
      subst h
      exact hinv)
    case And =>
      obtain ⟨tr, -, h⟩ := obind_ok h
      obtain ⟨cs2, -, h⟩ := obind_ok h
      obtain ⟨pr, -, h⟩ := obind_ok h
      exact ih (by simp; omega) h
    case Or =>
      obtain ⟨tr, -, h⟩ := obind_ok h
      obtain ⟨cs2, -, h⟩ := obind_ok h
      obtain ⟨pr, -, h⟩ := obind_ok h
      exact ih (by simp; omega) h
    case Semicolon =>
      obtain ⟨tr, -, h⟩ := obind_ok h
      obtain ⟨cs2, -, h⟩ := obind_ok h
      obtain ⟨t2, -, h⟩ := obind_ok h
      split at h
      · exact ih hinv h
      · obtain ⟨pr, -, h⟩ := obind_ok h
        exact ih (by simp; omega) h

/-- C5: for every input on which the parser succeeds, the returned
command line has exactly one more pipeline than operators, or both
lists are empty (the empty-line case). -/
theorem parse_operator_pipeline_invariant (cs : List Char) (cl : CommandLine)
    (h : parse cs = some (.ok cl)) :
    cl.operators.length + 1 = cl.pipelines.length
      ∨ (cl.pipelines = [] ∧ cl.operators = []) := by
  unfold parse at h
  split at h
  · exact absurd h (by simp)
  · exact absurd h (by simp)
  · rename_i cr heq
    simp only [Option.some.injEq, Except.ok.injEq] at h
    subst h
    obtain ⟨cs1, -, heq⟩ := obind_ok heq
    obtain ⟨t, -, heq⟩ := obind_ok heq
    split at heq
    · simp only [oret, Option.some.injEq, Except.ok.injEq] at heq
      subst heq
      exact Or.inr ⟨rfl, rfl⟩
    · obtain ⟨pr, -, heq⟩ := obind_ok heq
      exact Or.inl (parseLineLoop_inv (by simp) heq)

/-- Witness: `parse "a && b"` yields two pipelines joined by one
operator, and the invariant holds there. -/
theorem parse_operator_pipeline_invariant_witness :
    (⟨[⟨[⟨['a'], [], []⟩], none, [], false⟩, ⟨[⟨['b'], [], []⟩], none, [], false⟩],
      [LogicalOp.And]⟩ : CommandLine).operators.length + 1
        = (⟨[⟨[⟨['a'], [], []⟩], none, [], false⟩, ⟨[⟨['b'], [], []⟩], none, [], false⟩],
            [LogicalOp.And]⟩ : CommandLine).pipelines.length
      ∨ ((⟨[⟨[⟨['a'], [], []⟩], none, [], false⟩, ⟨[⟨['b'], [], []⟩], none, [], false⟩],
          [LogicalOp.And]⟩ : CommandLine).pipelines = []
         ∧ (⟨[⟨[⟨['a'], [], []⟩], none, [], false⟩, ⟨[⟨['b'], [], []⟩], none, [], false⟩],
            [LogicalOp.And]⟩ : CommandLine).operators = []) :=
  parse_operator_pipeline_invariant ('a' :: ' ' :: '&' :: '&' :: ' ' :: 'b' :: []) _ (by decide)

/-- A redirect list containing a stdin redirect always fails the
post-pipe check with the `InvalidSyntax` message, whatever has been
accumulated (`parser.rs` lines 146-152). -/
theorem pushNonStdin_stdin_error : ∀ (rds : List Redirect) (acc : List Redirect),
    (∃ r ∈ rds, r.redirect_type = RedirectType.StdinRead) →
    pushNonStdin acc rds = Except.error (ParseError.InvalidSyntax middlePipeMsg) := by
  intro rds
  induction rds with
  | nil => intro acc h; simp at h
  | cons r rest ih =>
    intro acc h
    rw [pushNonStdin]
    split
    · rfl
    · rename_i hne
      obtain ⟨r2, hmem, hr2⟩ := h
      rcases List.mem_cons.mp hmem with h1 | h1
      · exact absurd (h1 ▸ hr2) hne
      · exact ih _ ⟨r2, h1, hr2⟩

/-- Characterisation of the pipe-chain loop (`parser.rs` lines
133-164): the stdin redirect it was entered with is returned
unchanged; the first command survives; and the stdout redirects either
are the ones it was entered with (no `|` consumed) or come entirely
from the last parsed command through the cleared-list push. -/
theorem parsePipeLoop_char {fuel : Nat} : ∀ {cmds : List Command} {sr : Option Redirect}
    {srs : List Redirect} {cs : List Char} {res : Pipeline × List Char},
    parsePipeLoop fuel cmds sr srs cs = some (.ok res) →
    res.1.stdin_redirect = sr
    ∧ (cmds ≠ [] → res.1.commands.head? = cmds.head?)
    ∧ ((res.1.commands = cmds ∧ res.1.stdout_redirects = srs)
       ∨ ∃ f2 cs2 cmdL rdsL cs3,
           parse_command f2 cs2 = some (.ok ((cmdL, rdsL), cs3))
           ∧ res.1.commands.getLast? = some cmdL
           ∧ pushNonStdin [] rdsL = Except.ok res.1.stdout_redirects) := by
  induction fuel with
  | zero => intro _ _ _ _ _ h; simp [parsePipeLoop] at h
  | succ fuel ih =>
    intro cmds sr srs cs res h
    simp only [parsePipeLoop] at h
    obtain ⟨t, -, h⟩ := obind_ok h
    cases t <;> try (
      simp only [oret, Option.some.injEq, Except.ok.injEq] at h
      subst h
      exact ⟨rfl, fun _ => rfl, Or.inl ⟨rfl, rfl⟩⟩)
    case Pipe =>
      obtain ⟨tr, -, h⟩ := obind_ok h
      obtain ⟨cs2, -, h⟩ := obind_ok h
      obtain ⟨cr, hcr, h⟩ := obind_ok h
      cases hp : pushNonStdin [] cr.1.2 with
      | error e => rw [hp] at h; simp [oerr] at h
      | ok srs2 =>
        rw [hp] at h
        obtain ⟨h1, h2, h3⟩ := ih h
        refine ⟨h1, ?_, ?_⟩
        · intro hne
          cases cmds with
          | nil => exact absurd rfl hne
          | cons a l => simpa using h2 (by simp)
        · rcases h3 with ⟨hl1, hl2⟩ | hr
          · refine Or.inr ⟨fuel, cs2, cr.1.1, cr.1.2, cr.2, hcr, ?_, ?_⟩
            · rw [hl1]; exact List.getLast?_concat _
            · rw [hl2]; exact hp
          · exact Or.inr hr
    case Background =>
      obtain ⟨tr, -, h⟩ := obind_ok h
      simp only [oret, Option.some.injEq, Except.ok.injEq] at h
      subst h
      exact ⟨rfl, fun _ => rfl, Or.inl ⟨rfl, rfl⟩⟩

/-- C4 counterexample: in `a > f | b` the stdout redirect written on
the first command is silently discarded — the parsed pipeline has an
empty `stdout_redirects` list (the `stdout_redirects.clear()` at each
`|`, `parser.rs` line 144, throws away redirects of earlier commands),
where the claim requires it to be collected and attached. -/
theorem pipeline_redirect_discarded :
    parse ('a' :: ' ' :: '>' :: ' ' :: 'f' :: ' ' :: '|' :: ' ' :: 'b' :: [])
      = some (.ok ⟨[⟨[⟨['a'], [], []⟩, ⟨['b'], [], []⟩], none, [], false⟩], []⟩) := by
  decide

/-- C4 (amended): for every successfully parsed pipeline, the
`stdin_redirect` comes from the first command's redirect split (last
stdin redirect of the first command wins), the first parsed command is
the pipeline's first command, and the `stdout_redirects` are those of
the FIRST command when no `|` was consumed, and otherwise exactly the
non-stdin redirects of the LAST parsed command — redirects written on
earlier commands of a multi-command pipeline are discarded, not
collected; moreover a stdin redirect on any command after a `|` fails
the parse with the `InvalidSyntax` mid-pipeline error, as on
`a | b < f`. -/
theorem pipeline_redirect_attachment :
    (∀ (fuel : Nat) (cs : List Char) (res : Pipeline × List Char),
        parse_pipeline fuel cs = some (.ok res) →
        ∃ cr, parse_command fuel cs = some (.ok cr)
          ∧ res.1.commands.head? = some cr.1.1
          ∧ res.1.stdin_redirect = (splitRedirects none [] cr.1.2).1
          ∧ ((res.1.commands = [cr.1.1]
                ∧ res.1.stdout_redirects = (splitRedirects none [] cr.1.2).2)
             ∨ ∃ f2 cs2 cmdL rdsL cs3,
                 parse_command f2 cs2 = some (.ok ((cmdL, rdsL), cs3))
                 ∧ res.1.commands.getLast? = some cmdL
                 ∧ pushNonStdin [] rdsL = Except.ok res.1.stdout_redirects))
    ∧ (∀ (rds acc : List Redirect),
        (∃ r ∈ rds, r.redirect_type = RedirectType.StdinRead) →
        pushNonStdin acc rds = Except.error (ParseError.InvalidSyntax middlePipeMsg))
    ∧ parse ('a' :: ' ' :: '|' :: ' ' :: 'b' :: ' ' :: '<' :: ' ' :: 'f' :: [])
        = some (.error (ParseError.InvalidSyntax middlePipeMsg)) := by
  refine ⟨?_, fun rds acc h => pushNonStdin_stdin_error rds acc h, by decide⟩
  intro fuel cs res h
  unfold parse_pipeline at h
  obtain ⟨cr, hcr, h⟩ := obind_ok h
  obtain ⟨h1, h2, h3⟩ := parsePipeLoop_char h
  refine ⟨cr, hcr, ?_, h1, ?_⟩
  · rw [h2 (by simp)]; rfl
  · rcases h3 with ⟨ha, hb⟩ | hr
    · exact Or.inl ⟨ha, hb⟩
    · exact Or.inr hr

/-- Witness: the pipeline parsed from `a > f | b` instantiates the
amended characterisation (first command `a`, no stdin redirect, stdout
redirects empty — the non-stdin redirects of the last command `b`). -/
theorem pipeline_redirect_attachment_witness :
    (∃ cr, parse_command 10 ('a' :: ' ' :: '>' :: ' ' :: 'f' :: ' ' :: '|' :: ' ' :: 'b' :: [])
        = some (.ok cr)
      ∧ ([⟨['a'], [], []⟩, ⟨['b'], [], []⟩] : List Command).head? = some cr.1.1
      ∧ (none : Option Redirect) = (splitRedirects none [] cr.1.2).1
      ∧ ((([⟨['a'], [], []⟩, ⟨['b'], [], []⟩] : List Command) = [cr.1.1]
            ∧ ([] : List Redirect) = (splitRedirects none [] cr.1.2).2)
         ∨ ∃ f2 cs2 cmdL rdsL cs3,
             parse_command f2 cs2 = some (.ok ((cmdL, rdsL), cs3))
             ∧ ([⟨['a'], [], []⟩, ⟨['b'], [], []⟩] : List Command).getLast? = some cmdL
             ∧ pushNonStdin [] rdsL = Except.ok ([] : List Redirect)))
    ∧ parse ('a' :: ' ' :: '|' :: ' ' :: 'b' :: ' ' :: '<' :: ' ' :: 'f' :: [])
        = some (.error (ParseError.InvalidSyntax middlePipeMsg)) :=
  ⟨pipeline_redirect_attachment.1 10 ('a' :: ' ' :: '>' :: ' ' :: 'f' :: ' ' :: '|' :: ' ' :: 'b' :: [])
      (⟨[⟨['a'], [], []⟩, ⟨['b'], [], []⟩], none, [], false⟩, []) (by decide),
   pipeline_redirect_attachment.2.2⟩

/-! ## Shell (`csh/shell.rs`) -/

/-- The mutable shell state visible to `execute_line` (`shell.rs`,
lines 55-62): the exit flag and code, the environment's
`last_exit_code`, and the rest of the executor state abstracted as
`abs` (as for `Executor.execute`). -/
structure ShellSt (σ : Type) where
  should_exit : Bool
  exit_code : Int
  lec : Int
  abs : σ
deriving DecidableEq, Repr

/-- The whitespace removed by `str::trim`, restricted to ASCII. -/
def isTrimWs (c : Char) : Bool := c = ' ' || c = tabCh || c = nlCh || c = crCh

/-- `str::trim`. -/
def trimCh (cs : List Char) : List Char :=
  ((cs.dropWhile isTrimWs).reverse.dropWhile isTrimWs).reverse

/-- The literal `"exit"` of the textual exit check. -/
def exitWord : List Char := ['e', 'x', 'i', 't']

/-- Embedding of `Shell::execute_line` (`shell.rs`, lines 225-250):
parse; on a parse or lex error print `csh: {e}` to stderr (modelled as
the third component carrying the error) and return `failure(1)` with
the state untouched; on success execute through the executor, and set
the exit flag/code if the trimmed input starts with `exit`. -/
def execute_line {σ : Type} (run : Pipeline → σ → ExitStatus × σ) (input : List Char)
    (sh : ShellSt σ) : Option (ExitStatus × ShellSt σ × Option ParseError) :=
  match parse input with
  | none => none
  | some (.error e) => some (ExitStatus.failure 1, sh, some e)
  | some (.ok cl) =>
    if cl.is_empty then some (ExitStatus.success, sh, none)
    else
      let r := Executor.execute run cl sh.abs sh.lec
      let sh1 : ShellSt σ := { sh with abs := r.2.1, lec := r.2.2.1 }
      let sh2 := if List.isPrefixOf exitWord (trimCh input)
                 then { sh1 with should_exit := true, exit_code := r.1.code }
                 else sh1
      some (r.1, sh2, none)

/-- C7 counterexample: on the unparsable line `'` (unterminated single
quote) a shell whose `last_exit_code` is 0 returns status 1 and prints
the error, but its `last_exit_code` stays 0 — it is not set to 1 as
the claim states (`shell.rs` lines 244-247 return `failure(1)` without
touching the environment). -/
theorem parse_error_last_exit_code_unchanged :
    execute_line (fun (_ : Pipeline) (u : Unit) => (ExitStatus.success, u)) [squoteCh]
        ⟨false, 0, 0, ()⟩
      = some (ExitStatus.failure 1, ⟨false, 0, 0, ()⟩,
          some (ParseError.LexerError (LexerError.UnterminatedString squoteCh)))
    ∧ (⟨false, 0, 0, ()⟩ : ShellSt Unit).lec ≠ 1 := by
  constructor
  · decide
  · decide

/-- C7 (amended): on every line whose parse fails, `execute_line`
returns status `failure(1)`, reports the error (to stderr), and leaves
the whole shell state unchanged — it does not exit, and in particular
the environment's `last_exit_code` keeps its previous value instead of
being set to 1. -/
theorem execute_line_parse_error {σ : Type} (run : Pipeline → σ → ExitStatus × σ)
    (input : List Char) (sh : ShellSt σ) (e : ParseError)
    (h : parse input = some (.error e)) :
    execute_line run input sh = some (ExitStatus.failure 1, sh, some e) := by
  unfold execute_line
  rw [h]

/-- Witness: the unterminated-quote line with `last_exit_code = 5`
keeps 5 and reports the lexer error with status 1. -/
theorem execute_line_parse_error_witness :
    execute_line (fun (_ : Pipeline) (u : Unit) => (ExitStatus.success, u)) [squoteCh]
        ⟨false, 0, 5, ()⟩
      = some (ExitStatus.failure 1, ⟨false, 0, 5, ()⟩,
          some (ParseError.LexerError (LexerError.UnterminatedString squoteCh))) :=
  execute_line_parse_error (fun (_ : Pipeline) (u : Unit) => (ExitStatus.success, u))
    [squoteCh] ⟨false, 0, 5, ()⟩
    (ParseError.LexerError (LexerError.UnterminatedString squoteCh)) (by decide)

end Connexio
